import Mathlib

/-!
Verification development for the raster subsystem specified in `spec.md`:
an in-memory raster storage engine (the "MEM" driver) and the ASCII Grid
codec ("AAIGrid" driver), whose behaviour is exercised by the test suites
`autotest/gdrivers/mem.py` and `autotest/gdrivers/aaigrid.py`.  The driver
implementations themselves are not part of the provided sources (only their
tests are), so the definitions below are modelled from the specification's
words and checked against the concrete scenarios fixed by the tests.

Numbers are modelled exactly, as rationals: every numeric literal appearing
in the ASCII grid text format denotes a rational, and all claims under
verification only involve values that are exactly representable in the
element types they mention.
-/

set_option allowUnsafeReducibility true in
attribute [semireducible] Rat.add Rat.mul Rat.sub Rat.inv Rat.ofScientific

namespace GdalSpec

/-! ## Decimal digit primitives -/

/-- Character for one decimal digit value (0..9). -/
def digitChar (n : Nat) : Char := Char.ofNat (48 + n)

/-- Accumulator-style rendering of a natural number in base 10, with an
explicit fuel argument so that the definition is structurally recursive
(and hence evaluates inside the kernel).  `renderNat` supplies enough
fuel, so the fuel-exhausted branch is never reached. -/
def renderNatAux : Nat → Nat → List Char → List Char
  | 0, n, acc => digitChar n :: acc
  | fuel + 1, n, acc =>
    if n < 10 then digitChar n :: acc
    else renderNatAux fuel (n / 10) (digitChar (n % 10) :: acc)

/-- Decimal rendering of a natural number, most significant digit first. -/
def renderNat (n : Nat) : List Char := renderNatAux n n []

/-- Fold a digit string into the natural number it denotes; fails on any
non-digit character. -/
def parseNatAux : List Char → Nat → Option Nat
  | [], acc => some acc
  | c :: cs, acc =>
    if c.isDigit then parseNatAux cs (acc * 10 + (c.toNat - 48)) else none

/-- Parse a non-empty all-digit token as a natural number. -/
def parseNat (cs : List Char) : Option Nat :=
  if cs.isEmpty then none else parseNatAux cs 0

/-- Value of `n` appended (in base 10) after accumulated high digits `a`. -/
def shiftDigits (a n : Nat) : Nat :=
  if n < 10 then a * 10 + n
  else shiftDigits a (n / 10) * 10 + n % 10
termination_by n
decreasing_by exact Nat.div_lt_self (by omega) (by omega)

theorem digitChar_isDigit {n : Nat} (h : n < 10) : (digitChar n).isDigit = true := by
  interval_cases n <;> decide

theorem digitChar_toNat {n : Nat} (h : n < 10) : (digitChar n).toNat - 48 = n := by
  interval_cases n <;> decide

theorem parseNatAux_renderNatAux (fuel : Nat) :
    ∀ n acc a, n ≤ fuel →
      parseNatAux (renderNatAux fuel n acc) a = parseNatAux acc (shiftDigits a n) := by
  induction fuel with
  | zero =>
    intro n acc a hn
    have h0 : n = 0 := by omega
    subst h0
    rw [renderNatAux, shiftDigits, if_pos (by omega), parseNatAux,
      if_pos (digitChar_isDigit (by omega)), digitChar_toNat (by omega)]
  | succ fuel ih =>
    intro n acc a hn
    by_cases h : n < 10
    · rw [renderNatAux, if_pos h, shiftDigits, if_pos h, parseNatAux,
        if_pos (digitChar_isDigit h), digitChar_toNat h]
    · rw [renderNatAux, if_neg h, shiftDigits, if_neg h,
        ih (n / 10) _ a (by omega),
        parseNatAux, if_pos (digitChar_isDigit (Nat.mod_lt _ (by omega))),
        digitChar_toNat (Nat.mod_lt _ (by omega))]

theorem shiftDigits_zero (n : Nat) : shiftDigits 0 n = n := by
  induction n using Nat.strong_induction_on with
  | _ n ih =>
    by_cases h : n < 10
    · rw [shiftDigits, if_pos h]; omega
    · rw [shiftDigits, if_neg h, ih (n / 10) (Nat.div_lt_self (by omega) (by omega))]
      omega

theorem renderNatAux_ne_nil (fuel : Nat) :
    ∀ n acc, renderNatAux fuel n acc ≠ [] := by
  induction fuel with
  | zero => intro n acc; rw [renderNatAux]; simp
  | succ fuel ih =>
    intro n acc
    by_cases h : n < 10
    · rw [renderNatAux, if_pos h]; simp
    · rw [renderNatAux, if_neg h]
      exact ih _ _

theorem mem_renderNatAux {c : Char} (fuel : Nat) :
    ∀ n acc, n ≤ fuel → c ∈ renderNatAux fuel n acc →
      c ∈ acc ∨ c.isDigit = true := by
  induction fuel with
  | zero =>
    intro n acc hn h
    have h0 : n = 0 := by omega
    subst h0
    rw [renderNatAux] at h
    rcases List.mem_cons.1 h with h | h
    · exact Or.inr (h ▸ digitChar_isDigit (by omega))
    · exact Or.inl h
  | succ fuel ih =>
    intro n acc hn h
    by_cases hlt : n < 10
    · rw [renderNatAux, if_pos hlt] at h
      rcases List.mem_cons.1 h with h | h
      · exact Or.inr (h ▸ digitChar_isDigit hlt)
      · exact Or.inl h
    · rw [renderNatAux, if_neg hlt] at h
      rcases ih (n / 10) _ (by omega) h with h | h
      · rcases List.mem_cons.1 h with h | h
        · exact Or.inr (h ▸ digitChar_isDigit (Nat.mod_lt _ (by omega)))
        · exact Or.inl h
      · exact Or.inr h

/-- Parsing a rendered natural number recovers it. -/
theorem parseNat_renderNat (n : Nat) : parseNat (renderNat n) = some n := by
  rw [parseNat, renderNat, if_neg (by simpa using renderNatAux_ne_nil n n []),
    parseNatAux_renderNatAux n n [] 0 le_rfl, parseNatAux, shiftDigits_zero]

theorem renderNat_ne_nil (n : Nat) : renderNat n ≠ [] := renderNatAux_ne_nil n n []

theorem mem_renderNat_isDigit {c : Char} {n : Nat} (h : c ∈ renderNat n) :
    c.isDigit = true := by
  rcases mem_renderNatAux n n [] le_rfl h with h | h
  · simp at h
  · exact h

/-! ## Whitespace and tokenization

The ASCII grid format is a stream of whitespace-separated tokens; the
header is line-oriented but the decoder, like the driver it models, is
insensitive to which whitespace character separates two tokens. -/

/-- Whitespace characters recognised between tokens of an ASCII grid. -/
def isWsChar (c : Char) : Bool := c = ' ' || c = '\n' || c = '\t' || c = '\r'

/-- Normalize any whitespace character to a plain space. -/
def normWs (c : Char) : Char := if isWsChar c then ' ' else c

/-- Split a character stream into its whitespace-separated tokens. -/
def tokenize (cs : List Char) : List (List Char) :=
  ((cs.map normWs).splitOn ' ').filter (fun t => !t.isEmpty)

/-- A well-formed token: non-empty and free of whitespace. -/
def GoodTok (t : List Char) : Prop := t ≠ [] ∧ ∀ c ∈ t, isWsChar c = false

/-- Case-insensitive comparison of ASCII characters. -/
def eqIC (a b : Char) : Bool :=
  a == b
    || (65 ≤ a.toNat && a.toNat ≤ 90 && (a.toNat + 32 == b.toNat))
    || (65 ≤ b.toNat && b.toNat ≤ 90 && (b.toNat + 32 == a.toNat))

/-- Case-insensitive comparison of tokens (used for header keywords, which
the format accepts in any case-insensitive spelling). -/
def tokEqIC : List Char → List Char → Bool
  | [], [] => true
  | a :: as, b :: bs => eqIC a b && tokEqIC as bs
  | _, _ => false

theorem eqIC_refl (a : Char) : eqIC a a = true := by
  simp [eqIC]

theorem tokEqIC_refl (t : List Char) : tokEqIC t t = true := by
  induction t with
  | nil => rfl
  | cons a as ih => simp [tokEqIC, eqIC_refl, ih]

/-- A character that case-insensitively equals a lowercase letter has one of
two code points: the letter's own, or its uppercase variant's. -/
theorem eqIC_lower {c d : Char} (hd : 97 ≤ d.toNat) (hd2 : d.toNat ≤ 122)
    (h : eqIC c d = true) : c.toNat = d.toNat ∨ c.toNat + 32 = d.toNat := by
  unfold eqIC at h
  rw [Bool.or_eq_true, Bool.or_eq_true] at h
  rcases h with (h | h) | h
  · exact Or.inl (by rw [beq_iff_eq.1 h])
  · rw [Bool.and_eq_true, Bool.and_eq_true] at h
    exact Or.inr (beq_iff_eq.1 h.2)
  · rw [Bool.and_eq_true, Bool.and_eq_true] at h
    have h1 := of_decide_eq_true h.1.1
    have h2 := of_decide_eq_true h.1.2
    omega

/-! ## Numeric token parsing

A numeric token is parsed into a pair `(m, e)` denoting the rational
`m * 10 ^ e`.  The pair keeps the token's written precision (the number of
fractional digits is not normalized away), which the data-type inference
needs.  Both `.` and `,` are accepted as the decimal separator, and a
trailing exponent part introduced by `e`/`E` is supported. -/

/-- Split a token at the first exponent marker (`e` or `E`). -/
def isExpChar (c : Char) : Bool := c == 'e' || c == 'E'

/-- Mantissa part and (optional) exponent part of a token. -/
def breakAtExp : List Char → List Char × Option (List Char)
  | [] => ([], none)
  | c :: cs =>
    if isExpChar c then ([], some cs)
    else ((breakAtExp cs).1.cons c, (breakAtExp cs).2)

/-- Strip an optional leading sign; returns (isNegative, rest). -/
def parseSign (cs : List Char) : Bool × List Char :=
  match cs with
  | [] => (false, [])
  | c :: rest =>
    if c = '-' then (true, rest)
    else if c = '+' then (false, rest)
    else (false, cs)

/-- Numeric value of a digit string. -/
def digitsVal (cs : List Char) : Nat :=
  cs.foldl (fun a c => a * 10 + (c.toNat - 48)) 0

/-- Parse an unsigned mantissa `digits[.digits]` (also accepting `,` as the
decimal separator); returns (digit value, number of fractional digits). -/
def parseMant (cs : List Char) : Option (Nat × Nat) :=
  let ip := cs.takeWhile Char.isDigit
  let rest := cs.dropWhile Char.isDigit
  match rest with
  | [] => if ip.isEmpty then none else some (digitsVal ip, 0)
  | p :: rest2 =>
    if p = '.' || p = ',' then
      let fp := rest2.takeWhile Char.isDigit
      let rest3 := rest2.dropWhile Char.isDigit
      if rest3.isEmpty && !(ip.isEmpty && fp.isEmpty) then
        some (digitsVal (ip ++ fp), fp.length)
      else none
    else none

/-- Parse a signed decimal token with optional exponent into `(m, e)` with
value `m * 10 ^ e`. -/
def parseDec (cs : List Char) : Option (Int × Int) :=
  let me := breakAtExp cs
  let sm := parseSign me.1
  match parseMant sm.2 with
  | none => none
  | some vf =>
    let mant : Int := if sm.1 then -(vf.1 : Int) else (vf.1 : Int)
    match me.2 with
    | none => some (mant, -(vf.2 : Int))
    | some ecs =>
      let se := parseSign ecs
      match parseNat se.2 with
      | none => none
      | some ev =>
        some (mant, (if se.1 then -(ev : Int) else (ev : Int)) - (vf.2 : Int))

/-- Power of ten as a natural number. -/
def pow10 (n : Nat) : Nat := 10 ^ n

/-- Rational value denoted by a parsed token. -/
def decToQ (me : Int × Int) : ℚ :=
  match me.2 with
  | Int.ofNat n => ((me.1 * (pow10 n : Int) : Int) : ℚ)
  | Int.negSucc n => mkRat me.1 (pow10 (n + 1))

/-- Parse a token directly to its rational value. -/
def parseQ (cs : List Char) : Option ℚ := (parseDec cs).map decToQ

theorem parseDec_nil : parseDec [] = none := rfl

/-- A digit character's code point lies between 48 and 57. -/
theorem isDigit_toNat {c : Char} (h : c.isDigit = true) :
    48 ≤ c.toNat ∧ c.toNat ≤ 57 := by
  unfold Char.isDigit at h
  rw [Bool.and_eq_true] at h
  exact ⟨of_decide_eq_true h.1, of_decide_eq_true h.2⟩

/-- A token whose first character is an upper- or lowercase letter `n` (as in
the keywords `NODATA_value`, `null` and `nan`) is not a numeric token. -/
theorem parseDec_head_n {c : Char} (cs : List Char)
    (h : c.toNat = 110 ∨ c.toNat = 78) : parseDec (c :: cs) = none := by
  have hne : ∀ d : Char, d.toNat ≠ c.toNat → (c == d) = false := by
    intro d hd
    rw [beq_eq_false_iff_ne]
    intro he
    exact hd (by rw [he])
  have h101 : ('e' : Char).toNat = 101 := rfl
  have h69 : ('E' : Char).toNat = 69 := rfl
  have hexp : isExpChar c = false := by
    unfold isExpChar
    rw [hne 'e' (by omega), hne 'E' (by omega)]
    rfl
  have hdig : c.isDigit = false := by
    cases hd : c.isDigit with
    | false => rfl
    | true =>
      exfalso
      have := isDigit_toNat hd
      omega
  have hm : c ≠ '-' := by
    intro he; subst he; simp at h
  have hp : c ≠ '+' := by
    intro he; subst he; simp at h
  have hdot : c ≠ '.' := by
    intro he; subst he; simp at h
  have hcomma : c ≠ ',' := by
    intro he; subst he; simp at h
  unfold parseDec
  rw [breakAtExp, if_neg (by simp [hexp])]
  simp only [parseSign, if_neg hm, if_neg hp]
  rw [parseMant]
  simp only [List.takeWhile_cons, List.dropWhile_cons, hdig, Bool.false_eq_true,
    if_false, if_neg hdot, if_neg hcomma]
  simp [hdot, hcomma]

/-! ## Element types -/

/-- Closed set of raster element types used by the MEM store and the codec. -/
inductive ElemType
  | uint8
  | int16
  | uint16
  | int32
  | uint32
  | float32
  | float64
deriving DecidableEq, Repr

/-- Size in bytes of one element. -/
def elemSize : ElemType → Nat
  | .uint8 => 1
  | .int16 => 2
  | .uint16 => 2
  | .int32 => 4
  | .uint32 => 4
  | .float32 => 4
  | .float64 => 8

theorem elemSize_pos (t : ElemType) : 0 < elemSize t := by cases t <;> decide

theorem elemSize_le_eight (t : ElemType) : elemSize t ≤ 8 := by cases t <;> decide

/-! ## Data-type inference on parsed tokens

Modelled from the spec: decoding defaults to 32-bit float; 64-bit float is
selected when any data token or the nodata token requires wider precision
(integer magnitude or decimal exponent outside the 32-bit float range, or
more significant decimal digits than a 32-bit float preserves); when every
data token and the nodata token parse as integers the type narrows to a
32-bit integer; an explicit `DATATYPE` override forces the type. -/

/-- Number of decimal digits of a natural number (fuel-based structural
recursion; `numDigits` supplies enough fuel). -/
def numDigitsAux : Nat → Nat → Nat
  | 0, _ => 1
  | fuel + 1, n => if n < 10 then 1 else numDigitsAux fuel (n / 10) + 1

/-- Number of decimal digits of a natural number. -/
def numDigits (n : Nat) : Nat := numDigitsAux n n

/-- Strip factors of ten from an integer mantissa (fuel-based). -/
def stripZerosAux : Nat → Int → Int × Nat
  | 0, m => (m, 0)
  | fuel + 1, m =>
    if m ≠ 0 ∧ m % 10 = 0 then
      ((stripZerosAux fuel (m / 10)).1, (stripZerosAux fuel (m / 10)).2 + 1)
    else (m, 0)

/-- Strip factors of ten from an integer mantissa; returns the stripped
mantissa together with how many zeros were removed. -/
def stripZeros (m : Int) : Int × Nat := stripZerosAux m.natAbs m

/-- Count of significant decimal digits of a parsed token's mantissa. -/
def sigDigits (m : Int) : Nat := numDigits (stripZeros m).1.natAbs

/-- Decimal exponent (order of magnitude) of a parsed token's value. -/
def decExponent (me : Int × Int) : Int :=
  (sigDigits me.1 : Int) - 1 + (me.2 + ((stripZeros me.1).2 : Int))

/-- Whether a parsed token needs a 64-bit float: magnitude outside the
32-bit float decimal range, or more significant decimal digits than a
32-bit float preserves. -/
def requiresFloat64 (me : Int × Int) : Bool :=
  me.1 != 0 && (decExponent me < -38 || decExponent me > 37 || sigDigits me.1 > 9)

/-- Token classification used by the decoder: `none` for the `null`/`nan`
sentinel tokens, `some (m, e)` for a numeric token. -/
abbrev TokInfo := Option (Int × Int)

/-- Whether a (non-sentinel) token was written as an integer: no fractional
digits and a non-negative exponent. -/
def isIntInfo : TokInfo → Bool
  | some me => decide (0 ≤ me.2)
  | none => false

/-- Whether a token forces the 64-bit float type. -/
def isWideInfo : TokInfo → Bool
  | some me => requiresFloat64 me
  | none => false

/-- Modelled from the spec: data type inferred from all data tokens and the
optional nodata token. -/
def inferType (parsed : List TokInfo) (ndI : Option TokInfo) : ElemType :=
  if parsed.any isWideInfo || ndI.elim false isWideInfo then .float64
  else if parsed.all isIntInfo && ndI.elim true isIntInfo then .int32
  else .float32

/-! ## Numeric rendering

The encoder honours two mutually exclusive precision options — a fixed
count of digits after the decimal point (`DECIMAL_PRECISION`) or a fixed
count of significant digits (`SIGNIFICANT_DIGITS`, rendered like C's `%g`
including the scientific form with an at-least-two-digit exponent) — and
falls back to a default exact decimal expansion when neither is given. -/

/-- Round a rational to the nearest integer (ties towards positive). -/
def qRound (q : ℚ) : Int := (2 * q.num + (q.den : Int)) / (2 * (q.den : Int))

/-- Left-pad a digit string with zeros up to width `p`. -/
def padZeros (p : Nat) (ds : List Char) : List Char :=
  List.replicate (p - ds.length) '0' ++ ds

/-- Render `q` with exactly `p` digits after the decimal point (none when
`p = 0`), rounding to nearest. -/
def renderFixed (p : Nat) (q : ℚ) : List Char :=
  let n : Int := qRound (q * ((pow10 p : Int) : ℚ))
  let a := n.natAbs
  (if n < 0 then ['-'] else []) ++ renderNat (a / pow10 p) ++
    (if p = 0 then [] else '.' :: padZeros p (renderNat (a % pow10 p)))

/-- Multiplicity of the factor `p` in `n` (fuel-based). -/
def factorMultAux : Nat → Nat → Nat → Nat
  | 0, _, _ => 0
  | fuel + 1, p, n =>
    if 2 ≤ p ∧ n ≠ 0 ∧ n % p = 0 then factorMultAux fuel p (n / p) + 1 else 0

/-- Multiplicity of the factor `p` in `n`. -/
def factorMult (p n : Nat) : Nat := factorMultAux n p n

/-- Number of fractional digits of the exact decimal expansion of `q`, when
that expansion terminates. -/
def fracDigitsNeeded (q : ℚ) : Option Nat :=
  let a := factorMult 2 q.den
  let b := factorMult 5 q.den
  if 2 ^ a * 5 ^ b = q.den then some (max a b) else none

/-- Default rendering: the exact decimal expansion with at least one
fractional digit when it terminates, else 20 fractional digits. -/
def renderDefault (q : ℚ) : List Char :=
  match fracDigitsNeeded q with
  | some k => renderFixed (max 1 k) q
  | none => renderFixed 20 q

/-- Decimal exponent of a positive rational below one (as a positive
count of leading zero positions). -/
def smallExp (q : ℚ) : Nat :=
  (((List.range (numDigits q.den + 2)).find?
    (fun k => decide (1 ≤ q * ((pow10 k : Int) : ℚ)))).getD 0)

/-- Decimal exponent (order of magnitude) of a positive rational. -/
def decExpQ (q : ℚ) : Int :=
  if 1 ≤ q then (numDigits (q.num.natAbs / q.den) : Int) - 1
  else -(smallExp q : Int)

/-- Multiply a rational by an integer power of ten. -/
def qshift10 (q : ℚ) (sh : Int) : ℚ :=
  match sh with
  | Int.ofNat n => q * ((pow10 n : Int) : ℚ)
  | Int.negSucc n => q / ((pow10 (n + 1) : Int) : ℚ)

/-- Strip trailing zero digits. -/
def dropTrailZeros (ds : List Char) : List Char :=
  (ds.reverse.dropWhile (fun c => c == '0')).reverse

/-- Render `q` with `s` significant digits, in the style of C's `%g`:
trailing zeros stripped, scientific notation (with a sign and at least two
exponent digits) when the exponent falls outside `[-4, s)`. -/
def renderSig (s : Nat) (q : ℚ) : List Char :=
  let sd := max 1 s
  if q = 0 then ['0']
  else
    let sign : List Char := if q < 0 then ['-'] else []
    let aq : ℚ := if q < 0 then -q else q
    let e0 := decExpQ aq
    let m0 := qRound (qshift10 aq ((sd : Int) - 1 - e0))
    let m := if (pow10 sd : Int) ≤ m0 then m0 / 10 else m0
    let e := if (pow10 sd : Int) ≤ m0 then e0 + 1 else e0
    let digits0 := dropTrailZeros (renderNat m.natAbs)
    let digits := if digits0.isEmpty then ['0'] else digits0
    if e < -4 ∨ (sd : Int) ≤ e then
      let sci := match digits with
        | [] => ['0']
        | d :: ds => d :: (if ds.isEmpty then [] else '.' :: ds)
      sign ++ sci ++ 'e' :: (if e < 0 then '-' else '+') ::
        padZeros 2 (renderNat e.natAbs)
    else if 0 ≤ e then
      let en := e.toNat
      if digits.length ≤ en + 1 then
        sign ++ digits ++ List.replicate (en + 1 - digits.length) '0'
      else
        sign ++ digits.take (en + 1) ++ '.' :: digits.drop (en + 1)
    else
      sign ++ '0' :: '.' :: (List.replicate (e.natAbs - 1) '0' ++ digits)

/-- Encoder options: the two mutually exclusive precision controls. -/
structure EncodeOpts where
  decimalPrecision : Option Nat := none
  significantDigits : Option Nat := none
deriving DecidableEq, Repr

/-- Modelled from the spec: the rendering policy selected by the encoder
options — `DECIMAL_PRECISION`, else `SIGNIFICANT_DIGITS`, else the
default — used identically for data values and for the nodata value. -/
def renderOpt (o : EncodeOpts) (q : ℚ) : List Char :=
  match o.decimalPrecision with
  | some p => renderFixed p q
  | none =>
    match o.significantDigits with
    | some s => renderSig s q
    | none => renderDefault q

/-! ## ASCII Grid codec: data model

Modelled from the spec: the codec is a stateless transform between a
dataset (raster size, geotransform, optional nodata, element type, pixel
rows with row 0 northernmost) and the textual grid format with its fixed
six-line header. -/

/-- Affine geotransform: `(g0, g1, g2, g3, g4, g5)` maps column/row to
world coordinates; `g5` is the row pitch (negative for north-up). -/
structure GT where
  g0 : ℚ
  g1 : ℚ
  g2 : ℚ
  g3 : ℚ
  g4 : ℚ
  g5 : ℚ
deriving DecidableEq, Repr

/-- Dataset view exchanged with the ASCII Grid codec: one band, stored
row-major with row 0 first (northernmost in the text format). -/
structure AADataset where
  ncols : Nat
  nrows : Nat
  gt : GT
  ndv : Option ℚ
  dataType : ElemType
  rows : List (List ℚ)
deriving DecidableEq, Repr

/-- Decoder options: the `DATATYPE` override (also reachable through the
equivalent configuration option) forcing the element type. -/
structure DecodeOpts where
  datatype : Option ElemType := none
deriving DecidableEq, Repr

/-- Codec failure taxonomy (the `FormatError` family of the spec):
`sizeMismatch` is the fail-fast size validation of adversarial headers. -/
inductive CodecErr
  | formatError
  | sizeMismatch
deriving DecidableEq, Repr

def kwNcols : List Char := ['n', 'c', 'o', 'l', 's']

def kwNrows : List Char := ['n', 'r', 'o', 'w', 's']

def kwXllcorner : List Char := ['x', 'l', 'l', 'c', 'o', 'r', 'n', 'e', 'r']

def kwXllcenter : List Char := ['x', 'l', 'l', 'c', 'e', 'n', 't', 'e', 'r']

def kwYllcorner : List Char := ['y', 'l', 'l', 'c', 'o', 'r', 'n', 'e', 'r']

def kwYllcenter : List Char := ['y', 'l', 'l', 'c', 'e', 'n', 't', 'e', 'r']

def kwCellsize : List Char := ['c', 'e', 'l', 'l', 's', 'i', 'z', 'e']

def kwNodata : List Char := ['n', 'o', 'd', 'a', 't', 'a', '_', 'v', 'a', 'l', 'u', 'e']

def kwNull : List Char := ['n', 'u', 'l', 'l']

def kwNan : List Char := ['n', 'a', 'n']

/-- Largest finite 32-bit float value, exactly. -/
def fltMaxN : Nat := 2 ^ 128 - 2 ^ 104

/-- Largest finite 64-bit float value, exactly. -/
def dblMaxN : Nat := 2 ^ 1024 - 2 ^ 971

/-- Modelled from the spec: the sentinel nodata value substituted for the
`null` token — the most negative finite value of the selected float type
(so below `-1e38` for 32-bit float).  A true NaN bit pattern is outside
this rational model; the claims under verification only exercise `null`. -/
def sentinelValue (t : ElemType) : ℚ :=
  if t = ElemType.float64 then -((dblMaxN : Int) : ℚ) else -((fltMaxN : Int) : ℚ)

/-- Whether a token is one of the sentinel spellings `null` / `nan`
(case-insensitive). -/
def isSentinelTok (t : List Char) : Bool := tokEqIC t kwNull || tokEqIC t kwNan

/-- Classify one data or nodata token: outer `none` on a malformed token. -/
def tokInfo (t : List Char) : Option TokInfo :=
  if isSentinelTok t then some none else (parseDec t).map some

/-- Classify the optional nodata token. -/
def ndInfo : Option (List Char) → Option (Option TokInfo)
  | none => some none
  | some t => (tokInfo t).map some

/-- Detach the optional `NODATA_value` header line from the remaining
token stream. -/
def peelNodata (rest : List (List Char)) : Option (List Char) × List (List Char) :=
  match rest with
  | t :: v :: r => if tokEqIC t kwNodata then (some v, r) else (none, rest)
  | _ => (none, rest)

/-- Split a flat value list into `h` rows of width `w`. -/
def chunkRows (w : Nat) : Nat → List ℚ → List (List ℚ)
  | 0, _ => []
  | n + 1, l => l.take w :: chunkRows w n (l.drop w)

/-- Geotransform reconstructed from the parsed header: corner or
cell-center origin convention, square cells, north-up storage. -/
def mkGT (xc yc : Bool) (xll yll cs : ℚ) (nr : Nat) : GT :=
  let x0 := if xc then xll - cs / 2 else xll
  let y0 := if yc then yll - cs / 2 else yll
  ⟨x0, cs, 0, y0 + (nr : ℚ) * cs, 0, -cs⟩

/-- Byte count the data tokens occupy in the stream (each token plus one
separator character). -/
def streamBytes (toks : List (List Char)) : Nat :=
  toks.foldl (fun a t => a + t.length + 1) 0

/-- Decode the token stream that follows a successfully parsed header.
Modelled from the spec: the advertised `ncols * nrows` is validated
against the remaining stream size *before* the grid is materialised
(fail-fast on corrupt/adversarial headers), then tokens are classified,
the element type is inferred (unless overridden), the `null`/`nan`
sentinel is resolved, and the rows are assembled. -/
def decodeBody (o : DecodeOpts) (nc nr : Nat) (xc yc : Bool) (xll yll cs : ℚ)
    (rest : List (List Char)) : Except CodecErr AADataset :=
  let nd := peelNodata rest
  let dataToks := nd.2
  if nc * nr > streamBytes dataToks then .error .sizeMismatch
  else if dataToks.length < nc * nr then .error .formatError
  else
    match (dataToks.take (nc * nr)).mapM tokInfo, ndInfo nd.1 with
    | some parsed, some ndI =>
      let ty := o.datatype.getD (inferType parsed ndI)
      let ndVal : Option ℚ := ndI.map (fun i =>
        match i with
        | none => sentinelValue ty
        | some me => decToQ me)
      let vals := parsed.map (fun i =>
        match i with
        | none => ndVal.getD (sentinelValue ty)
        | some me => decToQ me)
      .ok ⟨nc, nr, mkGT xc yc xll yll cs nr, ndVal, ty, chunkRows nc nr vals⟩
    | _, _ => .error .formatError

/-- Modelled from the spec: the AAIGrid driver source (`frmts/aaigrid`) is
not among the provided files, so the decoder follows the spec's words —
fixed ordered header (`ncols`, `nrows`, corner-or-center origin,
`cellsize`, optional case-insensitive `NODATA_value`), then the row-major
whitespace-separated data tokens. -/
def decodeToks (o : DecodeOpts) (toks : List (List Char)) : Except CodecErr AADataset :=
  match toks with
  | t1 :: v1 :: t2 :: v2 :: t3 :: v3 :: t4 :: v4 :: t5 :: v5 :: rest =>
    if tokEqIC t1 kwNcols && tokEqIC t2 kwNrows
        && (tokEqIC t3 kwXllcorner || tokEqIC t3 kwXllcenter)
        && (tokEqIC t4 kwYllcorner || tokEqIC t4 kwYllcenter)
        && tokEqIC t5 kwCellsize then
      match parseNat v1, parseNat v2, parseDec v3, parseDec v4, parseDec v5 with
      | some nc, some nr, some xme, some yme, some cme =>
        decodeBody o nc nr (tokEqIC t3 kwXllcenter) (tokEqIC t4 kwYllcenter)
          (decToQ xme) (decToQ yme) (decToQ cme) rest
      | _, _, _, _, _ => .error .formatError
    else .error .formatError
  | _ => .error .formatError

/-- Modelled from the spec: decode an ASCII grid byte stream (the AAIGrid
driver source is not among the provided files). -/
def decode (o : DecodeOpts) (s : String) : Except CodecErr AADataset :=
  decodeToks o (tokenize s.data)

/-! ## ASCII Grid codec: encoder -/

/-- Whether the dataset is stored south-up (positive row pitch). -/
def southUp (ds : AADataset) : Bool := decide (0 < ds.gt.g5)

/-- Rows in the order they are written: flipped for south-up storage so the
textual grid is always north-up. -/
def encRows (ds : AADataset) : List (List ℚ) :=
  if southUp ds then ds.rows.reverse else ds.rows

/-- The `yllcorner` value emitted: the world-space minimum `y` of the
raster's extent, for either orientation. -/
def encYll (ds : AADataset) : ℚ :=
  if southUp ds then ds.gt.g3 else ds.gt.g3 + (ds.nrows : ℚ) * ds.gt.g5

/-- Modelled from the spec: the encoder (the AAIGrid driver's CreateCopy
is not among the provided files) emits the fixed header — with the nodata
line rendered under the same precision policy as the data — then one line
per (north-up) row; each line is a list of whitespace-free tokens. -/
def encodeLines (ds : AADataset) (o : EncodeOpts) : List (List (List Char)) :=
  [[kwNcols, renderNat ds.ncols],
   [kwNrows, renderNat ds.nrows],
   [kwXllcorner, renderDefault ds.gt.g0],
   [kwYllcorner, renderDefault (encYll ds)],
   [kwCellsize, renderDefault ds.gt.g1]]
  ++ (match ds.ndv with
      | none => []
      | some v => [[kwNodata, renderOpt o v]])
  ++ (encRows ds).map (fun r => r.map (renderOpt o))

/-- Encoded character stream: tokens joined by single spaces within a
line, lines joined by newlines. -/
def encodeChars (ds : AADataset) (o : EncodeOpts) : List Char :=
  List.intercalate ['\n'] ((encodeLines ds o).map (List.intercalate [' ']))

/-- Encode a dataset as an ASCII grid byte stream. -/
def encodeText (ds : AADataset) (o : EncodeOpts) : String :=
  String.mk (encodeChars ds o)

/-! ## MEM driver: pixel store, dataset, masks

Modelled from the spec: dataset creation allocates a pixel store sized by
`(width, height, bandCount, elementType, interleave)`; allocation fails
with `AllocationError.overflow` when `width*height*bandCount*elementSize`
does not fit the platform's address width and with
`AllocationError.outOfMemory` when the backing allocation fails; creation
returns "no dataset" (`none`) on any failure.  The fresh buffer is
zero-filled.  Mask state follows the spec's state machine: no mask, one
shared per-dataset mask visible identically through every band, or
private per-band masks. -/

/-- Physical ordering of multi-band pixel data. -/
inductive Interleave
  | band
  | pixel
deriving DecidableEq, Repr

/-- Allocation failure: arithmetic overflow while sizing the buffer, or a
true out-of-memory condition.  Both are reported, never a crash. -/
inductive AllocError
  | overflow
  | outOfMemory
deriving DecidableEq, Repr

/-- Platform parameters: address width in bits and available memory in
bytes. -/
structure MemEnv where
  addrBits : Nat
  memAvailable : Nat
deriving DecidableEq, Repr

/-- Pixel store owning the raw pixel values of one dataset. -/
structure PixelStore where
  width : Nat
  height : Nat
  bandCount : Nat
  ty : ElemType
  interleave : Interleave
  data : List ℚ
deriving DecidableEq, Repr

/-- Byte size implied by the store geometry. -/
def byteSize (w h b : Nat) (t : ElemType) : Nat := w * h * b * elemSize t

/-- Modelled from the spec: allocate a pixel store, failing with
`overflow` when the byte size does not fit the address width and with
`outOfMemory` when it exceeds available memory; the fresh buffer is
zero-filled. -/
def allocate (env : MemEnv) (w h b : Nat) (t : ElemType) (il : Interleave) :
    Except AllocError PixelStore :=
  if 2 ^ env.addrBits ≤ byteSize w h b t then .error .overflow
  else if env.memAvailable < byteSize w h b t then .error .outOfMemory
  else .ok ⟨w, h, b, t, il, List.replicate (w * h * b) 0⟩

/-- In-memory dataset: the pixel store plus the mask state machine
(`maskDataset` is the shared per-dataset mask; `maskPerBand` the private
per-band masks). -/
structure MemDataset where
  store : PixelStore
  maskDataset : Option (List ℚ)
  maskPerBand : List (Option (List ℚ))
deriving DecidableEq, Repr

/-- Modelled from the spec: dataset creation returns `none` (no dataset)
on any allocation failure rather than throwing. -/
def MemDataset.create (env : MemEnv) (w h b : Nat) (t : ElemType)
    (il : Interleave) : Option MemDataset :=
  match allocate env w h b t il with
  | .error _ => none
  | .ok ps => some ⟨ps, none, List.replicate b none⟩

/-- Pixels of band `i` (0-based) in row-major order, resolving the store's
interleave layout. -/
def bandPixels (ds : MemDataset) (i : Nat) : List ℚ :=
  let n := ds.store.width * ds.store.height
  match ds.store.interleave with
  | .band => (ds.store.data.drop (i * n)).take n
  | .pixel => (List.range n).map (fun j => ds.store.data.getD (j * ds.store.bandCount + i) 0)

/-- Reproducible content digest of a value list (the spec leaves the exact
checksum algorithm free as long as it is reproducible). -/
def checksum (l : List ℚ) : Nat :=
  (l.map (fun q => q.num.natAbs % 65536)).sum % 65536

/-- Mask-state failure taxonomy. -/
inductive MaskErr
  | invalidState
deriving DecidableEq, Repr

/-- Modelled from the spec: create the shared per-dataset mask (zero-filled,
i.e. all pixels initially masked invalid); fails with `invalidState` on a
zero-band dataset. -/
def createMaskBandDataset (ds : MemDataset) : Except MaskErr MemDataset :=
  if ds.store.bandCount = 0 then .error .invalidState
  else .ok { ds with maskDataset := some (List.replicate (ds.store.width * ds.store.height) 0) }

/-- Modelled from the spec: create a mask through one band; with the
per-dataset flag this behaves exactly like the dataset-level call,
otherwise it installs a private mask for that band only. -/
def createMaskBandOnBand (ds : MemDataset) (i : Nat) (perDataset : Bool) :
    Except MaskErr MemDataset :=
  if perDataset then createMaskBandDataset ds
  else if i < ds.store.bandCount then
    .ok { ds with maskPerBand :=
      ds.maskPerBand.set i (some (List.replicate (ds.store.width * ds.store.height) 0)) }
  else .error .invalidState

/-- Modelled from the spec: mask pixels observed through band `i`'s mask
accessor — the shared per-dataset mask when present, else the band's
private mask, else the synthetic all-valid mask (the MEM driver source is
not among the provided files). -/
def getMaskVals (ds : MemDataset) (i : Nat) : List ℚ :=
  match ds.maskDataset with
  | some m => m
  | none =>
    match ds.maskPerBand.getD i none with
    | some m => m
    | none => List.replicate (ds.store.width * ds.store.height) 255

/-- Modelled from the spec: fill band `i`'s mask with a constant value,
through whichever mask object band `i`'s accessor resolves to. -/
def fillMaskViaBand (ds : MemDataset) (i : Nat) (v : ℚ) : MemDataset :=
  match ds.maskDataset with
  | some m => { ds with maskDataset := some (List.replicate m.length v) }
  | none =>
    match ds.maskPerBand.getD i none with
    | some m => { ds with maskPerBand := ds.maskPerBand.set i (some (List.replicate m.length v)) }
    | none => ds

/-- Modelled from the spec: minimum and maximum over a band's values,
excluding nodata pixels. -/
def computeMinMax (vals : List ℚ) (ndv : Option ℚ) : Option (ℚ × ℚ) :=
  let vs := vals.filter (fun v => decide (ndv ≠ some v))
  match vs with
  | [] => none
  | x :: xs => some (xs.foldl min x, xs.foldl max x)

/-! ## Overview engine: AVERAGE resampling kernel

Modelled from the spec: an overview for decimation factor `f` has size
`ceil(width/f) × ceil(height/f)`, and the `AVERAGE` kernel
arithmetic-means the `f×f` (or edge-clipped smaller) source block of each
destination pixel. -/

/-- A single-band raster viewed as a pixel function with explicit size. -/
structure Grid where
  w : Nat
  h : Nat
  px : Nat → Nat → ℚ

/-- Ceiling division. -/
def ceilDiv (a f : Nat) : Nat := (a + f - 1) / f

/-- Modelled from the spec: the AVERAGE kernel arithmetic-means the `f×f`
(or edge-clipped smaller) source block of destination pixel `(x, y)`. -/
def blockAvg (g : Grid) (f x y : Nat) : ℚ :=
  let x1 := min (f * x + f) g.w
  let y1 := min (f * y + f) g.h
  let cw := x1 - f * x
  let ch := y1 - f * y
  (((List.range ch).map (fun j =>
    ((List.range cw).map (fun i => g.px (f * x + i) (f * y + j))).sum)).sum)
    / ((cw * ch : Nat) : ℚ)

/-- Modelled from the spec: the overview engine's AVERAGE decimation by
factor `f`, producing a `ceil(w/f) × ceil(h/f)` overview (the overview
engine's source is not among the provided files). -/
def averageDecimate (f : Nat) (g : Grid) : Grid :=
  ⟨ceilDiv g.w f, ceilDiv g.h f, fun x y => blockAvg g f x y⟩

/-- Extensional equality of grids on their common domain. -/
def GridEq (a b : Grid) : Prop :=
  a.w = b.w ∧ a.h = b.h ∧ ∀ x y, x < a.w → y < a.h → a.px x y = b.px x y

/-! ## Helper lemmas about the MEM model -/

theorem getD_replicate (m j : Nat) (a : ℚ) : (List.replicate m a).getD j a = a := by
  induction m generalizing j with
  | zero => simp [List.getD]
  | succ m ih =>
    cases j with
    | zero => simp [List.replicate, List.getD]
    | succ j => simp only [List.replicate, List.getD_cons_succ]; exact ih j

theorem checksum_replicate_zero (n : Nat) : checksum (List.replicate n 0) = 0 := by
  unfold checksum
  simp

/-- Successful creation yields exactly the zero-filled stores of the model. -/
theorem create_inv {env : MemEnv} {w h b : Nat} {t : ElemType} {il : Interleave}
    {ds : MemDataset} (hds : MemDataset.create env w h b t il = some ds) :
    ds = ⟨⟨w, h, b, t, il, List.replicate (w * h * b) 0⟩, none, List.replicate b none⟩ := by
  unfold MemDataset.create allocate at hds
  by_cases h1 : 2 ^ env.addrBits ≤ byteSize w h b t
  · rw [if_pos h1] at hds; simp at hds
  · rw [if_neg h1] at hds
    by_cases h2 : env.memAvailable < byteSize w h b t
    · rw [if_pos h2] at hds; simp at hds
    · rw [if_neg h2] at hds
      simp only [Option.some.injEq] at hds
      exact hds.symm

theorem bandPixels_create {env : MemEnv} {w h b : Nat} {t : ElemType} {il : Interleave}
    {ds : MemDataset} (hds : MemDataset.create env w h b t il = some ds)
    {i : Nat} (hi : i < b) : bandPixels ds i = List.replicate (w * h) 0 := by
  rw [create_inv hds]
  unfold bandPixels
  cases il with
  | band =>
    simp only [List.drop_replicate, List.take_replicate]
    congr 1
    have h1 : i * (w * h) + w * h ≤ b * (w * h) := by
      have hm := Nat.mul_le_mul_right (w * h) (show i + 1 ≤ b by omega)
      calc i * (w * h) + w * h = (i + 1) * (w * h) := by ring
        _ ≤ b * (w * h) := hm
    have e : w * h * b = b * (w * h) := by ring
    omega
  | pixel =>
    simp only
    rw [List.map_congr_left (fun j _ => getD_replicate (w * h * b) (j * b + i) 0)]
    simp

theorem getD_eq_getElem?_getD (l : List (Option (List ℚ))) (i : Nat) :
    l.getD i none = (l[i]?).getD none := by
  simp [List.getD]

instance {α β : Type} [DecidableEq α] [DecidableEq β] : DecidableEq (Except α β) :=
  fun a b =>
    match a, b with
    | .ok x, .ok y =>
      if h : x = y then .isTrue (by rw [h]) else .isFalse (by simp [h])
    | .error x, .error y =>
      if h : x = y then .isTrue (by rw [h]) else .isFalse (by simp [h])
    | .ok _, .error _ => .isFalse (by simp)
    | .error _, .ok _ => .isFalse (by simp)

/-! ## Claim C2: overflow guard on allocation -/

/-- C2. Overflow guard on allocation: whenever
`width*height*bandCount*elementSize` does not fit the address width,
allocation fails with the overflow `AllocationError` and dataset creation
returns no dataset (`none`); a true out-of-memory failure is reported the
same observable way (creation returns `none`, never a crash); and any
dataset that is created holds a full-size buffer, never a truncated one. -/
theorem mem_create_overflow_guard (env : MemEnv) (w h b : Nat) (t : ElemType)
    (il : Interleave) :
    (2 ^ env.addrBits ≤ byteSize w h b t →
      allocate env w h b t il = .error .overflow ∧
      MemDataset.create env w h b t il = none) ∧
    (byteSize w h b t < 2 ^ env.addrBits → env.memAvailable < byteSize w h b t →
      allocate env w h b t il = .error .outOfMemory ∧
      MemDataset.create env w h b t il = none) ∧
    (∀ ds, MemDataset.create env w h b t il = some ds →
      ds.store.data.length = w * h * b) := by
  refine ⟨?_, ?_, ?_⟩
  · intro hov
    have ha : allocate env w h b t il = .error .overflow := by
      unfold allocate; rw [if_pos hov]
    refine ⟨ha, ?_⟩
    unfold MemDataset.create
    rw [ha]
  · intro hlt hmem
    have ha : allocate env w h b t il = .error .outOfMemory := by
      unfold allocate; rw [if_neg (by omega), if_pos hmem]
    refine ⟨ha, ?_⟩
    unfold MemDataset.create
    rw [ha]
  · intro ds hds
    rw [create_inv hds]
    simp

/-- C2 witness: a 2147483647 × 2147483647 Float64 request overflows a
32-bit address space and creation returns no dataset; a store that does
fit but exceeds available memory is reported as out-of-memory, also
returning no dataset. -/
theorem mem_create_overflow_guard_witness :
    (2 ^ 32 ≤ byteSize 2147483647 2147483647 1 ElemType.float64 ∧
      allocate ⟨32, 1000000⟩ 2147483647 2147483647 1 ElemType.float64 .band =
        .error .overflow ∧
      MemDataset.create ⟨32, 1000000⟩ 2147483647 2147483647 1 ElemType.float64 .band =
        none) ∧
    (allocate ⟨32, 100⟩ 101 1 1 ElemType.uint8 .band = .error .outOfMemory ∧
      MemDataset.create ⟨32, 100⟩ 101 1 1 ElemType.uint8 .band = none) :=
  ⟨⟨by decide,
    (mem_create_overflow_guard ⟨32, 1000000⟩ 2147483647 2147483647 1
      ElemType.float64 .band).1 (by decide)⟩,
   (mem_create_overflow_guard ⟨32, 100⟩ 101 1 1 ElemType.uint8 .band).2.1
     (by decide) (by decide)⟩

/-! ## Claim C10: zero-initialization at creation -/

/-- C10. Zero-initialization: a newly created in-memory dataset, under
either interleave, reads back zero on every band (checksum 0) until the
first write; and a freshly created explicit mask band (per-dataset or
per-band) is zero-filled. -/
theorem mem_zero_init (env : MemEnv) (w h b : Nat) (t : ElemType) (il : Interleave)
    (ds : MemDataset) (hds : MemDataset.create env w h b t il = some ds) :
    (∀ i, i < b → bandPixels ds i = List.replicate (w * h) 0 ∧
      checksum (bandPixels ds i) = 0) ∧
    (∀ ds2, createMaskBandDataset ds = .ok ds2 →
      ∀ i, getMaskVals ds2 i = List.replicate (w * h) 0 ∧
        checksum (getMaskVals ds2 i) = 0) ∧
    (∀ k ds3, createMaskBandOnBand ds k false = .ok ds3 →
      getMaskVals ds3 k = List.replicate (w * h) 0 ∧
        checksum (getMaskVals ds3 k) = 0) := by
  refine ⟨?_, ?_, ?_⟩
  · intro i hi
    have hb := bandPixels_create hds hi
    exact ⟨hb, by rw [hb, checksum_replicate_zero]⟩
  · intro ds2 hds2
    intro i
    rw [create_inv hds] at hds2
    unfold createMaskBandDataset at hds2
    by_cases hb : b = 0
    · simp [hb] at hds2
    · rw [if_neg (by simpa using hb)] at hds2
      simp only [Except.ok.injEq] at hds2
      have hv : getMaskVals ds2 i = List.replicate (w * h) 0 := by
        rw [← hds2]
        unfold getMaskVals
        rfl
      exact ⟨hv, by rw [hv, checksum_replicate_zero]⟩
  · intro k ds3 hds3
    rw [create_inv hds] at hds3
    unfold createMaskBandOnBand at hds3
    rw [if_neg (by simp)] at hds3
    by_cases hk : k < b
    · rw [if_pos (by simpa using hk)] at hds3
      simp only [Except.ok.injEq] at hds3
      have hv : getMaskVals ds3 k = List.replicate (w * h) 0 := by
        rw [← hds3]
        unfold getMaskVals
        simp only
        rw [getD_eq_getElem?_getD,
          List.getElem?_set_self (by simpa using hk)]
        rfl
      exact ⟨hv, by rw [hv, checksum_replicate_zero]⟩
    · rw [if_neg (by simpa using hk)] at hds3
      simp at hds3

/-- C10 witness: a concrete 1×1 two-band dataset in both interleaves. -/
theorem mem_zero_init_witness :
    (MemDataset.create ⟨64, 100⟩ 1 1 2 ElemType.uint8 .band =
      some ⟨⟨1, 1, 2, ElemType.uint8, .band, List.replicate 2 0⟩, none,
        List.replicate 2 none⟩) ∧
    (MemDataset.create ⟨64, 100⟩ 1 1 2 ElemType.uint8 .pixel =
      some ⟨⟨1, 1, 2, ElemType.uint8, .pixel, List.replicate 2 0⟩, none,
        List.replicate 2 none⟩) ∧
    (0 < 2 ∧
      bandPixels ⟨⟨1, 1, 2, ElemType.uint8, .pixel, List.replicate 2 0⟩, none,
        List.replicate 2 none⟩ 0 = List.replicate 1 0 ∧
      checksum (bandPixels ⟨⟨1, 1, 2, ElemType.uint8, .pixel, List.replicate 2 0⟩,
        none, List.replicate 2 none⟩ 0) = 0) :=
  ⟨by decide, by decide,
    by
      refine ⟨by decide, ?_⟩
      exact (mem_zero_init ⟨64, 100⟩ 1 1 2 ElemType.uint8 .pixel
        ⟨⟨1, 1, 2, ElemType.uint8, .pixel, List.replicate 2 0⟩, none,
          List.replicate 2 none⟩ (by decide)).1 0 (by decide)⟩

/-! ## Claim C6: mask scope invariant -/

/-- C6. Mask scope invariant: requesting a per-dataset mask through any
single band behaves exactly like the dataset-level call; once the shared
mask exists every band's mask accessor observes the identical object, and
a fill performed via one band's mask is observed via every other band's
mask; whereas creating a per-band mask on one band leaves the other
bands' masks unaffected. -/
theorem mem_mask_scope_invariant (env : MemEnv) (w h b : Nat) (t : ElemType)
    (il : Interleave) (ds : MemDataset)
    (hds : MemDataset.create env w h b t il = some ds) :
    (∀ k, createMaskBandOnBand ds k true = createMaskBandDataset ds) ∧
    (∀ ds1, createMaskBandDataset ds = .ok ds1 →
      (∀ i j, getMaskVals ds1 i = getMaskVals ds1 j) ∧
      (∀ i j v, getMaskVals (fillMaskViaBand ds1 i v) j =
        List.replicate (w * h) v)) ∧
    (∀ i ds2, createMaskBandOnBand ds i false = .ok ds2 →
      ∀ j, j ≠ i → getMaskVals ds2 j = getMaskVals ds j) := by
  refine ⟨?_, ?_, ?_⟩
  · intro k
    unfold createMaskBandOnBand
    rw [if_pos rfl]
  · intro ds1 hds1
    rw [create_inv hds] at hds1
    unfold createMaskBandDataset at hds1
    by_cases hb : b = 0
    · simp [hb] at hds1
    · rw [if_neg (by simpa using hb)] at hds1
      simp only [Except.ok.injEq] at hds1
      constructor
      · intro i j
        rw [← hds1]
        rfl
      · intro i j v
        rw [← hds1]
        unfold fillMaskViaBand getMaskVals
        simp
  · intro i ds2 hds2
    rw [create_inv hds] at hds2
    unfold createMaskBandOnBand at hds2
    rw [if_neg (by simp)] at hds2
    by_cases hi : i < b
    · rw [if_pos (by simpa using hi)] at hds2
      simp only [Except.ok.injEq] at hds2
      intro j hj
      rw [← hds2, create_inv hds]
      unfold getMaskVals
      simp only
      rw [getD_eq_getElem?_getD, getD_eq_getElem?_getD,
        List.getElem?_set_ne (by omega)]
    · rw [if_neg (by simpa using hi)] at hds2
      simp at hds2

/-- C6 witness: a concrete 1×1 two-band dataset; the shared mask is seen
by both bands and a fill through band 0 is observed through band 1. -/
theorem mem_mask_scope_invariant_witness :
    (MemDataset.create ⟨64, 100⟩ 1 1 2 ElemType.uint8 .band =
      some ⟨⟨1, 1, 2, ElemType.uint8, .band, List.replicate 2 0⟩, none,
        List.replicate 2 none⟩) ∧
    (createMaskBandDataset ⟨⟨1, 1, 2, ElemType.uint8, .band, List.replicate 2 0⟩,
      none, List.replicate 2 none⟩ =
      .ok ⟨⟨1, 1, 2, ElemType.uint8, .band, List.replicate 2 0⟩,
        some (List.replicate 1 0), List.replicate 2 none⟩) ∧
    getMaskVals (fillMaskViaBand ⟨⟨1, 1, 2, ElemType.uint8, .band,
      List.replicate 2 0⟩, some (List.replicate 1 0), List.replicate 2 none⟩
      0 255) 1 = List.replicate 1 255 :=
  ⟨by decide, by decide,
    ((mem_mask_scope_invariant ⟨64, 100⟩ 1 1 2 ElemType.uint8 .band
      ⟨⟨1, 1, 2, ElemType.uint8, .band, List.replicate 2 0⟩, none,
        List.replicate 2 none⟩ (by decide)).2.1
      ⟨⟨1, 1, 2, ElemType.uint8, .band, List.replicate 2 0⟩,
        some (List.replicate 1 0), List.replicate 2 none⟩ (by decide)).2 0 1 255⟩

/-! ## Claim C9: null-sentinel decode -/

/-- Grid text of the `test_aaigrid_null` scenario. -/
def txtNull : String :=
  "ncols        4\nnrows        1\nxllcorner    0\nyllcorner    -1\ncellsize     1\nNODATA_value  null\nnull 1.5 null 3.5\n"

/-- C9. Null-sentinel decode: the grid whose `NODATA_value` is the token
`null` and whose data row holds `null` tokens along with 1.5 and 3.5
decodes to a 32-bit float band whose nodata value is below `-1e38`, and
`computeMinMax` (excluding nodata pixels) returns exactly `(1.5, 3.5)`. -/
theorem aaigrid_null_sentinel_decode :
    decode {} txtNull =
      .ok ⟨4, 1, ⟨0, 1, 0, 0, 0, -1⟩, some (sentinelValue .float32), .float32,
        [[sentinelValue .float32, 3/2, sentinelValue .float32, 7/2]]⟩ ∧
    sentinelValue .float32 < -(10 ^ 38 : ℚ) ∧
    computeMinMax [sentinelValue .float32, 3/2, sentinelValue .float32, 7/2]
      (some (sentinelValue .float32)) = some (3/2, 7/2) :=
  ⟨by decide, by decide, by decide⟩

/-! ## Claim C3: data type inference -/

/-- Grid text of the `test_aaigrid_15` scenario (nodata is the smallest
normal 64-bit float). -/
def txt15 : String :=
  "ncols        4\nnrows        1\nxllcorner    0\nyllcorner    -1\ncellsize     1\nNODATA_value  2.2250738585072014e-308\n 2.2250738585072014e-308 0 1 2.3e-308\n"

/-- All-integer grid in the style of the `nodata_int.asc` fixture of
`test_aaigrid_6bis`. -/
def txtIntGrid : String :=
  "ncols 2\nnrows 1\nxllcorner 0\nyllcorner 0\ncellsize 1\nNODATA_value -99999\n1 2\n"

/-- Plain float grid (decimal tokens within 32-bit float range). -/
def txtFloatGrid : String :=
  "ncols 2\nnrows 1\nxllcorner 0\nyllcorner 0\ncellsize 1\nNODATA_value -99999.5\n1.5 2.5\n"

/-- C3. Data type inference: the float grid decodes as 32-bit float by
default; the grid whose nodata is `2.2250738585072014e-308` requires
wider precision and decodes as 64-bit float; the all-integer grid decodes
as a 32-bit integer band with the exact nodata `-99999`; and an explicit
`DATATYPE` override forces the decoded type regardless of inference. -/
theorem aaigrid_type_inference :
    ((decode {} txtFloatGrid).map (fun d => d.dataType) = .ok ElemType.float32) ∧
    ((decode {} txt15).map (fun d => d.dataType) = .ok ElemType.float64) ∧
    ((decode {} txtIntGrid).map (fun d => (d.dataType, d.ndv)) =
      .ok (ElemType.int32, some (-99999))) ∧
    (∀ (o : DecodeOpts) (s : String) (t : ElemType) (ds : AADataset),
      o.datatype = some t → decode o s = .ok ds → ds.dataType = t) := by
  refine ⟨by decide, by decide, by decide, ?_⟩
  intro o s t ds ht hds
  unfold decode decodeToks at hds
  split at hds
  · split at hds
    · split at hds
      · unfold decodeBody at hds
        dsimp only at hds
        split at hds
        · exact absurd hds (by simp)
        · split at hds
          · exact absurd hds (by simp)
          · split at hds
            · simp only [Except.ok.injEq] at hds
              rw [← hds]
              simp [ht]
            · exact absurd hds (by simp)
      · exact absurd hds (by simp)
    · exact absurd hds (by simp)
  · exact absurd hds (by simp)

/-- C3 witness: forcing `DATATYPE=Float64` on the default-Float32 grid. -/
theorem aaigrid_type_inference_witness :
    (DecodeOpts.mk (some ElemType.float64)).datatype = some ElemType.float64 ∧
    decode ⟨some ElemType.float64⟩ txtFloatGrid =
      .ok ⟨2, 1, ⟨0, 1, 0, 1, 0, -1⟩, some (mkRat (-199999) 2), ElemType.float64,
        [[3/2, 5/2]]⟩ ∧
    (⟨2, 1, ⟨0, 1, 0, 1, 0, -1⟩, some (mkRat (-199999) 2), ElemType.float64,
        [[3/2, 5/2]]⟩ : AADataset).dataType = ElemType.float64 :=
  ⟨rfl, by decide,
    aaigrid_type_inference.2.2.2 ⟨some ElemType.float64⟩ txtFloatGrid
      ElemType.float64 _ rfl (by decide)⟩

/-! ## Claim C8: nodata precision contract on encode -/

/-- C8. Nodata precision contract: the encoder renders the `NODATA_value`
token with exactly the same rendering policy `renderOpt o` it applies to
every data token; under `DECIMAL_PRECISION=3` the nodata `-99999` renders
as the literal `-99999.000`, and under `SIGNIFICANT_DIGITS=3` as
`-1e+05`. -/
theorem aaigrid_nodata_precision (ds : AADataset) (o : EncodeOpts) (v : ℚ)
    (hv : ds.ndv = some v) :
    encodeLines ds o =
      [[kwNcols, renderNat ds.ncols], [kwNrows, renderNat ds.nrows],
       [kwXllcorner, renderDefault ds.gt.g0],
       [kwYllcorner, renderDefault (encYll ds)],
       [kwCellsize, renderDefault ds.gt.g1],
       [kwNodata, renderOpt o v]]
      ++ (encRows ds).map (fun r => r.map (renderOpt o)) ∧
    renderOpt ⟨some 3, none⟩ (-99999) = "-99999.000".data ∧
    renderOpt ⟨none, some 3⟩ (-99999) = "-1e+05".data := by
  refine ⟨?_, by decide, by decide⟩
  unfold encodeLines
  rw [hv]
  rfl

/-- C8 witness: a concrete 1×1 dataset with nodata `-99999`. -/
theorem aaigrid_nodata_precision_witness :
    (AADataset.ndv ⟨1, 1, ⟨0, 1, 0, 1, 0, -1⟩, some (-99999), ElemType.float32,
      [[5]]⟩ = some (-99999)) ∧
    encodeLines ⟨1, 1, ⟨0, 1, 0, 1, 0, -1⟩, some (-99999), ElemType.float32,
        [[5]]⟩ ⟨some 3, none⟩ =
      [[kwNcols, renderNat 1], [kwNrows, renderNat 1],
       [kwXllcorner, renderDefault 0], [kwYllcorner, renderDefault 0],
       [kwCellsize, renderDefault 1],
       [kwNodata, renderOpt ⟨some 3, none⟩ (-99999)]]
      ++ [[renderOpt ⟨some 3, none⟩ 5]] :=
  ⟨rfl, by
    have h := (aaigrid_nodata_precision
      ⟨1, 1, ⟨0, 1, 0, 1, 0, -1⟩, some (-99999), ElemType.float32, [[5]]⟩
      ⟨some 3, none⟩ (-99999) rfl).1
    rw [h]
    decide⟩

/-! ## Claim C7: adversarial-header fail-fast -/

/-- C7. Adversarial-header fail-fast: whenever a well-formed header
advertises `ncols * nrows * elementSize` far exceeding (more than eight
times) the bytes remaining in the stream, decoding fails with the
size-mismatch `FormatError` — before the grid is materialised and
returning no dataset. -/
theorem aaigrid_size_guard (o : DecodeOpts) (s : String)
    (t1 v1 t2 v2 t3 v3 t4 v4 t5 v5 : List Char) (rest : List (List Char))
    (htoks : tokenize s.data =
      t1 :: v1 :: t2 :: v2 :: t3 :: v3 :: t4 :: v4 :: t5 :: v5 :: rest)
    (hkw : (tokEqIC t1 kwNcols && tokEqIC t2 kwNrows
      && (tokEqIC t3 kwXllcorner || tokEqIC t3 kwXllcenter)
      && (tokEqIC t4 kwYllcorner || tokEqIC t4 kwYllcenter)
      && tokEqIC t5 kwCellsize) = true)
    (nc nr : Nat) (hnc : parseNat v1 = some nc) (hnr : parseNat v2 = some nr)
    (xme yme cme : Int × Int) (hx : parseDec v3 = some xme)
    (hy : parseDec v4 = some yme) (hc : parseDec v5 = some cme)
    (ty : ElemType)
    (hbig : 8 * streamBytes (peelNodata rest).2 < nc * nr * elemSize ty) :
    decode o s = .error .sizeMismatch := by
  unfold decode
  rw [htoks]
  unfold decodeToks
  dsimp only
  rw [if_pos hkw, hnc, hnr, hx, hy, hc]
  unfold decodeBody
  dsimp only
  have hgt : nc * nr > streamBytes (peelNodata rest).2 := by
    have h8 : nc * nr * elemSize ty ≤ nc * nr * 8 :=
      Nat.mul_le_mul_left _ (elemSize_le_eight ty)
    have : 8 * streamBytes (peelNodata rest).2 < nc * nr * 8 := by omega
    have h2 : 8 * streamBytes (peelNodata rest).2 < 8 * (nc * nr) := by
      calc 8 * streamBytes (peelNodata rest).2 < nc * nr * 8 := this
        _ = 8 * (nc * nr) := by ring
    omega
  rw [if_pos hgt]

/-- C7 witness: the `test_aaigrid_open_file_with_large_dimension_but_small`
input — 10000001 advertised columns against a four-byte data stream. -/
theorem aaigrid_size_guard_witness :
    (tokenize ("ncols        10000001\nnrows        1\nxllcorner    0\nyllcorner    -1\ncellsize     1\n0 0\n" : String).data =
      kwNcols :: ['1','0','0','0','0','0','0','1'] :: kwNrows :: ['1'] ::
      kwXllcorner :: ['0'] :: kwYllcorner :: ['-','1'] ::
      kwCellsize :: ['1'] :: [['0'], ['0']]) ∧
    8 * streamBytes (peelNodata [['0'], ['0']]).2 <
      10000001 * 1 * elemSize ElemType.float32 ∧
    decode {} "ncols        10000001\nnrows        1\nxllcorner    0\nyllcorner    -1\ncellsize     1\n0 0\n" =
      .error .sizeMismatch :=
  ⟨by decide, by decide,
    aaigrid_size_guard {} _ kwNcols ['1','0','0','0','0','0','0','1'] kwNrows
      ['1'] kwXllcorner ['0'] kwYllcorner ['-','1'] kwCellsize ['1']
      [['0'], ['0']] (by decide) (by decide) 10000001 1 (by decide) (by decide)
      (0, 0) (-1, 0) (1, 0) (by decide) (by decide) (by decide)
      ElemType.float32 (by decide)⟩

/-! ## Claim C5: overview AVERAGE composability -/

/-- Width-3 grid whose edge-clipped blocks separate one-step from two-step
averaging. -/
def cexGrid : Grid := ⟨3, 1, fun x _ => if x = 2 then 6 else 0⟩

/-- Fully interior block: the clipped bounds vanish. -/
theorem blockAvg_full (g : Grid) (f x y : Nat) (hx : f * x + f ≤ g.w)
    (hy : f * y + f ≤ g.h) :
    blockAvg g f x y =
      (((List.range f).map (fun j =>
        ((List.range f).map (fun i => g.px (f * x + i) (f * y + j))).sum)).sum)
        / ((f * f : Nat) : ℚ) := by
  unfold blockAvg
  dsimp only
  rw [Nat.min_eq_left hx, Nat.min_eq_left hy]
  simp

theorem averageDecimate_w (f : Nat) (g : Grid) :
    (averageDecimate f g).w = ceilDiv g.w f := rfl

theorem averageDecimate_h (f : Nat) (g : Grid) :
    (averageDecimate f g).h = ceilDiv g.h f := rfl

theorem averageDecimate_px (f : Nat) (g : Grid) (x y : Nat) :
    (averageDecimate f g).px x y = blockAvg g f x y := rfl

/-- C5 counterexample: for the 3×1 band `(0, 0, 6)` — all of whose
averages are exactly representable — averaging directly to factor 4 gives
the pixel value 2 while averaging twice by factor 2 gives 3, so the
claim's universally quantified composability fails on edge-clipped
blocks. -/
theorem overview_average_composable_counterexample :
    ¬ GridEq (averageDecimate 4 cexGrid)
      (averageDecimate 2 (averageDecimate 2 cexGrid)) := by
  intro h
  have hpx := h.2.2 0 0 (by decide) (by decide)
  have h1 : (averageDecimate 4 cexGrid).px 0 0 = 2 := by decide
  have h2 : (averageDecimate 2 (averageDecimate 2 cexGrid)).px 0 0 = 3 := by decide
  rw [h1, h2] at hpx
  exact absurd hpx (by decide)

/-- C5 (amended). Overview AVERAGE composability on full blocks: when the
band's width and height are multiples of 4 (so no block is edge-clipped),
averaging directly to decimation factor 4 equals averaging to factor 2
and then averaging that overview by factor 2 again, pixel for pixel. -/
theorem overview_average_composable (g : Grid) (h4w : 4 ∣ g.w) (h4h : 4 ∣ g.h) :
    GridEq (averageDecimate 4 g) (averageDecimate 2 (averageDecimate 2 g)) := by
  obtain ⟨a, hwa⟩ := h4w
  obtain ⟨b, hhb⟩ := h4h
  refine ⟨?_, ?_, ?_⟩
  · show ceilDiv g.w 4 = ceilDiv (ceilDiv g.w 2) 2
    unfold ceilDiv
    omega
  · show ceilDiv g.h 4 = ceilDiv (ceilDiv g.h 2) 2
    unfold ceilDiv
    omega
  · intro x y hx hy
    rw [averageDecimate_w] at hx
    rw [averageDecimate_h] at hy
    have hxa : x < a := by
      unfold ceilDiv at hx
      omega
    have hyb : y < b := by
      unfold ceilDiv at hy
      omega
    have hw2 : (averageDecimate 2 g).w = 2 * a := by
      rw [averageDecimate_w]
      unfold ceilDiv
      omega
    have hh2 : (averageDecimate 2 g).h = 2 * b := by
      rw [averageDecimate_h]
      unfold ceilDiv
      omega
    rw [averageDecimate_px, averageDecimate_px,
      blockAvg_full g 4 x y (by omega) (by omega),
      blockAvg_full (averageDecimate 2 g) 2 x y (by omega) (by omega)]
    have hinner : ∀ i j, i < 2 → j < 2 →
        (averageDecimate 2 g).px (2 * x + i) (2 * y + j) =
          (((List.range 2).map (fun q =>
            ((List.range 2).map (fun p =>
              g.px (2 * (2 * x + i) + p) (2 * (2 * y + j) + q))).sum)).sum)
            / ((2 * 2 : Nat) : ℚ) := by
      intro i j hi hj
      rw [averageDecimate_px, blockAvg_full g 2 (2 * x + i) (2 * y + j)
        (by omega) (by omega)]
    simp only [List.range_succ, List.range_zero, List.nil_append,
      List.map_append, List.map_cons, List.map_nil, List.sum_append,
      List.sum_cons, List.sum_nil]
    rw [hinner 0 0 (by omega) (by omega), hinner 1 0 (by omega) (by omega),
      hinner 0 1 (by omega) (by omega), hinner 1 1 (by omega) (by omega)]
    simp only [List.range_succ, List.range_zero, List.nil_append,
      List.map_append, List.map_cons, List.map_nil, List.sum_append,
      List.sum_cons, List.sum_nil]
    norm_num
    ring_nf

/-- C5 witness: the amended law evaluated on a concrete 4×4 grid. -/
theorem overview_average_composable_witness :
    (4 ∣ (Grid.mk 4 4 (fun x y => (x : ℚ) + 4 * y)).w) ∧
    GridEq (averageDecimate 4 (Grid.mk 4 4 (fun x y => (x : ℚ) + 4 * y)))
      (averageDecimate 2 (averageDecimate 2
        (Grid.mk 4 4 (fun x y => (x : ℚ) + 4 * y)))) :=
  ⟨by decide,
    overview_average_composable (Grid.mk 4 4 (fun x y => (x : ℚ) + 4 * y))
      (by decide) (by decide)⟩

/-! ## Tokenizer algebra

These lemmas show that tokenizing the encoder's output recovers exactly
the encoder's token list: whitespace normalization leaves whitespace-free
tokens intact, line joins collapse into one flat space-separated join,
and splitting undoes joining. -/

theorem intercalate_single (s a : List Char) : List.intercalate s [a] = a := by
  simp [List.intercalate]

theorem intercalate_cons_cons (s a b : List Char) (t : List (List Char)) :
    List.intercalate s (a :: b :: t) = a ++ s ++ List.intercalate s (b :: t) := by
  simp [List.intercalate, List.intersperse_cons_cons]

theorem map_intercalate (f : Char → Char) (s : List Char) :
    ∀ L : List (List Char), (List.intercalate s L).map f =
      List.intercalate (s.map f) (L.map (List.map f))
  | [] => by simp [List.intercalate]
  | [a] => by simp [intercalate_single]
  | a :: b :: t => by
    rw [intercalate_cons_cons]
    simp only [List.map_append, List.map_cons]
    rw [intercalate_cons_cons, map_intercalate f s (b :: t)]
    simp

theorem intercalate_append_ne (s : List Char) :
    ∀ (l m : List (List Char)), l ≠ [] → m ≠ [] →
      List.intercalate s (l ++ m) = List.intercalate s l ++ s ++ List.intercalate s m
  | [], _, hl, _ => absurd rfl hl
  | [a], m, _, hm => by
    cases m with
    | nil => exact absurd rfl hm
    | cons b t =>
      rw [List.singleton_append, intercalate_cons_cons, intercalate_single]
  | a :: b :: t, m, _, hm => by
    rw [List.cons_append, List.cons_append, intercalate_cons_cons,
      intercalate_cons_cons, ← List.cons_append,
      intercalate_append_ne s (b :: t) m (by simp) hm]
    simp

theorem intercalate_map_intercalate :
    ∀ lines : List (List (List Char)), (∀ l ∈ lines, l ≠ []) →
      List.intercalate [' '] (lines.map (List.intercalate [' '])) =
        List.intercalate [' '] lines.flatten
  | [], _ => rfl
  | [l], _ => by simp [intercalate_single]
  | l :: l2 :: t, h => by
    have h1 : l ≠ [] := h l (by simp)
    have h2 : (l2 :: t).flatten ≠ [] := by
      have : l2 ≠ [] := h l2 (by simp)
      simp only [List.flatten_cons]
      intro hemp
      exact this (List.append_eq_nil.1 hemp).1
    have hmc : (l :: l2 :: t).map (List.intercalate [' ']) =
        List.intercalate [' '] l :: List.intercalate [' '] l2 ::
          t.map (List.intercalate [' ']) := rfl
    rw [hmc, intercalate_cons_cons,
      show (List.intercalate [' '] l2 :: t.map (List.intercalate [' '])) =
        (l2 :: t).map (List.intercalate [' ']) from rfl,
      intercalate_map_intercalate (l2 :: t)
        (fun x hx => h x (List.mem_cons_of_mem _ hx)),
      show (l :: l2 :: t).flatten = l ++ (l2 :: t).flatten from rfl,
      intercalate_append_ne [' '] l ((l2 :: t).flatten) h1 h2]

theorem map_normWs_id {tk : List Char} (h : ∀ c ∈ tk, isWsChar c = false) :
    tk.map normWs = tk := by
  have : tk.map normWs = tk.map id := by
    apply List.map_congr_left
    intro c hc
    unfold normWs
    rw [h c hc]
    rfl
  rw [this, List.map_id]

/-- Tokenizing the encoder's character stream recovers the flat token
list, provided every line is non-empty and every token is well-formed. -/
theorem tokenize_lines (lines : List (List (List Char)))
    (hl : ∀ l ∈ lines, l ≠ [])
    (ht : ∀ l ∈ lines, ∀ tk ∈ l, GoodTok tk)
    (hne : lines ≠ []) :
    tokenize (List.intercalate ['\n'] (lines.map (List.intercalate [' ']))) =
      lines.flatten := by
  have htf : ∀ tk ∈ lines.flatten, GoodTok tk := by
    intro tk htk
    obtain ⟨l, hlm, htm⟩ := List.mem_flatten.1 htk
    exact ht l hlm tk htm
  unfold tokenize
  have hstep1 :
      (List.intercalate ['\n'] (lines.map (List.intercalate [' ']))).map normWs =
        List.intercalate [' '] lines.flatten := by
    rw [map_intercalate]
    have hsep : (['\n'] : List Char).map normWs = [' '] := rfl
    rw [hsep]
    have hmap : (lines.map (List.intercalate [' '])).map (List.map normWs) =
        lines.map (List.intercalate [' ']) := by
      rw [List.map_map]
      apply List.map_congr_left
      intro l hlmem
      show (List.intercalate [' '] l).map normWs = List.intercalate [' '] l
      rw [map_intercalate]
      have hsp : ([' '] : List Char).map normWs = [' '] := rfl
      rw [hsp]
      congr 1
      have : ∀ tk ∈ l, List.map normWs tk = tk :=
        fun tk htk => map_normWs_id (ht l hlmem tk htk).2
      calc l.map (List.map normWs) = l.map id := List.map_congr_left this
        _ = l := List.map_id l
    rw [hmap, intercalate_map_intercalate lines hl]
  rw [hstep1]
  have hflat_ne : lines.flatten ≠ [] := by
    cases lines with
    | nil => exact absurd rfl hne
    | cons l t =>
      have : l ≠ [] := hl l (by simp)
      simp only [List.flatten_cons]
      intro hemp
      exact this (List.append_eq_nil.1 hemp).1
  have hx : ∀ tk ∈ lines.flatten, ' ' ∉ tk := by
    intro tk htk hsp
    have := (htf tk htk).2 ' ' hsp
    simp [isWsChar] at this
  rw [List.splitOn_intercalate lines.flatten ' ' hx hflat_ne]
  apply List.filter_eq_self.mpr
  intro tk htk
  have := (htf tk htk).1
  simp [List.isEmpty_iff, this]

/-! ## Characterization of successfully parsed tokens

A token accepted by `parseDec` consists only of sign characters, digits,
a decimal separator and an exponent marker — in particular it is
non-empty and whitespace-free (`GoodTok`), and it cannot spell any of the
letter keywords (`NODATA_value`, `null`, `nan`). -/

theorem isWsChar_false_of_toNat {c : Char} (h32 : c.toNat ≠ 32)
    (h10 : c.toNat ≠ 10) (h9 : c.toNat ≠ 9) (h13 : c.toNat ≠ 13) :
    isWsChar c = false := by
  unfold isWsChar
  have e1 : decide (c = ' ') = false :=
    decide_eq_false (fun he => h32 (by rw [he]; rfl))
  have e2 : decide (c = '\n') = false :=
    decide_eq_false (fun he => h10 (by rw [he]; rfl))
  have e3 : decide (c = '\t') = false :=
    decide_eq_false (fun he => h9 (by rw [he]; rfl))
  have e4 : decide (c = '\r') = false :=
    decide_eq_false (fun he => h13 (by rw [he]; rfl))
  rw [e1, e2, e3, e4]
  rfl

theorem isWsChar_false_of_isDigit {c : Char} (h : c.isDigit = true) :
    isWsChar c = false := by
  have := isDigit_toNat h
  exact isWsChar_false_of_toNat (by omega) (by omega) (by omega) (by omega)

theorem parseNatAux_digits :
    ∀ (cs : List Char) (acc n : Nat), parseNatAux cs acc = some n →
      ∀ c ∈ cs, c.isDigit = true
  | [], _, _, _ => by intro c hc; simp at hc
  | c :: cs, acc, n, h => by
    intro d hd
    rw [parseNatAux] at h
    by_cases hc : c.isDigit
    · rw [if_pos hc] at h
      rcases List.mem_cons.1 hd with rfl | hd2
      · exact hc
      · exact parseNatAux_digits cs _ n h d hd2
    · rw [if_neg hc] at h
      exact absurd h (by simp)

theorem parseNat_chars {cs : List Char} {n : Nat} (h : parseNat cs = some n) :
    cs ≠ [] ∧ ∀ c ∈ cs, c.isDigit = true := by
  unfold parseNat at h
  by_cases he : cs.isEmpty
  · rw [if_pos he] at h
    exact absurd h (by simp)
  · rw [if_neg he] at h
    exact ⟨fun hnil => he (by rw [hnil]; rfl), parseNatAux_digits cs 0 n h⟩

theorem breakAtExp_none :
    ∀ {cs m : List Char}, breakAtExp cs = (m, none) →
      cs = m ∧ ∀ c ∈ m, isExpChar c = false
  | [], m, h => by
    rw [breakAtExp] at h
    injection h with h1 h2
    subst h1
    exact ⟨rfl, by intro c hc; simp at hc⟩
  | c :: cs, m, h => by
    rw [breakAtExp] at h
    by_cases hc : isExpChar c
    · rw [if_pos (by simpa using hc)] at h
      injection h with h1 h2
      exact absurd h2 (by simp)
    · rw [if_neg (by simpa using hc)] at h
      injection h with h1 h2
      have hrec := @breakAtExp_none cs ((breakAtExp cs).1) (by rw [← h2])
      subst h1
      refine ⟨by rw [← hrec.1], ?_⟩
      intro d hd
      rcases List.mem_cons.1 hd with rfl | hd2
      · simpa using hc
      · exact hrec.2 d hd2

theorem breakAtExp_some :
    ∀ {cs m r : List Char}, breakAtExp cs = (m, some r) →
      (∀ c ∈ m, isExpChar c = false) ∧
        ∃ c0, isExpChar c0 = true ∧ cs = m ++ c0 :: r
  | [], m, r, h => by
    rw [breakAtExp] at h
    injection h with h1 h2
    exact absurd h2 (by simp)
  | c :: cs, m, r, h => by
    rw [breakAtExp] at h
    by_cases hc : isExpChar c
    · rw [if_pos (by simpa using hc)] at h
      injection h with h1 h2
      injection h2 with h2
      subst h2
      refine ⟨by intro d hd; rw [← h1] at hd; simp at hd, c, hc, by rw [← h1]; simp⟩
    · rw [if_neg (by simpa using hc)] at h
      injection h with h1 h2
      have hrec := @breakAtExp_some cs ((breakAtExp cs).1) r (by rw [← h2])
      subst h1
      obtain ⟨c0, h0, hsplit⟩ := hrec.2
      refine ⟨?_, c0, h0, by rw [List.cons_append, ← hsplit]⟩
      intro d hd
      rcases List.mem_cons.1 hd with rfl | hd2
      · simpa using hc
      · exact hrec.1 d hd2

theorem parseSign_cases (cs : List Char) :
    parseSign cs = (false, cs) ∨
      (∃ r, cs = '-' :: r ∧ parseSign cs = (true, r)) ∨
      (∃ r, cs = '+' :: r ∧ parseSign cs = (false, r)) := by
  cases cs with
  | nil => left; rfl
  | cons c r =>
    unfold parseSign
    dsimp only
    by_cases h1 : c = '-'
    · subst h1
      right; left
      exact ⟨r, rfl, by rw [if_pos rfl]⟩
    · rw [if_neg h1]
      by_cases h2 : c = '+'
      · subst h2
        right; right
        exact ⟨r, rfl, by rw [if_pos rfl]⟩
      · rw [if_neg h2]
        left; rfl

theorem parseMant_chars {cs : List Char} {vf : Nat × Nat}
    (h : parseMant cs = some vf) :
    cs ≠ [] ∧ ∀ c ∈ cs, c.isDigit = true ∨ c = '.' ∨ c = ',' := by
  have hsplit := List.takeWhile_append_dropWhile (p := Char.isDigit) (l := cs)
  unfold parseMant at h
  cases hrest : cs.dropWhile Char.isDigit with
  | nil =>
    rw [hrest] at h hsplit
    rw [List.append_nil] at hsplit
    dsimp only at h
    by_cases hip : (cs.takeWhile Char.isDigit).isEmpty
    · rw [if_pos hip] at h
      exact absurd h (by simp)
    · refine ⟨?_, ?_⟩
      · intro hnil
        apply hip
        rw [List.isEmpty_iff, hnil]
        simp
      · intro c hc
        left
        rw [← hsplit] at hc
        exact List.mem_takeWhile_imp hc
  | cons p rest2 =>
    rw [hrest] at h hsplit
    dsimp only at h
    by_cases hp : (p = '.' || p = ',') = true
    · rw [if_pos hp] at h
      by_cases hcond : ((rest2.dropWhile Char.isDigit).isEmpty &&
          !((cs.takeWhile Char.isDigit).isEmpty &&
            (rest2.takeWhile Char.isDigit).isEmpty)) = true
      · rw [Bool.and_eq_true] at hcond
        have hr3 : rest2.dropWhile Char.isDigit = [] :=
          List.isEmpty_iff.1 hcond.1
        have hr2 : rest2.takeWhile Char.isDigit = rest2 := by
          have := List.takeWhile_append_dropWhile (p := Char.isDigit) (l := rest2)
          rw [hr3, List.append_nil] at this
          exact this
        refine ⟨?_, ?_⟩
        · intro hnil
          rw [hnil] at hsplit
          exact absurd hsplit (by simp)
        · intro c hc
          rw [← hsplit] at hc
          rcases List.mem_append.1 hc with hc1 | hc2
          · exact Or.inl (List.mem_takeWhile_imp hc1)
          · rcases List.mem_cons.1 hc2 with rfl | hc3
            · right
              rw [Bool.or_eq_true] at hp
              rcases hp with hp | hp
              · exact Or.inl (of_decide_eq_true hp)
              · exact Or.inr (of_decide_eq_true hp)
            · left
              rw [← hr2] at hc3
              exact List.mem_takeWhile_imp hc3
      · rw [if_neg hcond] at h
        exact absurd h (by simp)
    · rw [if_neg hp] at h
      exact absurd h (by simp)

/-- Every token `parseDec` accepts is non-empty and whitespace-free. -/
theorem parseDec_good {t : List Char} {me : Int × Int} (h : parseDec t = some me) :
    GoodTok t := by
  unfold parseDec at h
  dsimp only at h
  cases hpm : parseMant (parseSign (breakAtExp t).1).2 with
  | none =>
    rw [hpm] at h
    exact absurd h (by simp)
  | some vf =>
    rw [hpm] at h
    have hmant := parseMant_chars hpm
    have hmantWs : ∀ c ∈ (parseSign (breakAtExp t).1).2, isWsChar c = false := by
      intro c hc
      rcases hmant.2 c hc with hd | hd | hd
      · exact isWsChar_false_of_isDigit hd
      · subst hd; rfl
      · subst hd; rfl
    have hm1 : ∀ c ∈ (breakAtExp t).1, isWsChar c = false := by
      rcases parseSign_cases (breakAtExp t).1 with hs | ⟨r, hr, hs⟩ | ⟨r, hr, hs⟩
      · intro c hc
        apply hmantWs
        rw [hs]
        exact hc
      · rw [hr]
        intro c hc
        rcases List.mem_cons.1 hc with rfl | hc2
        · rfl
        · exact hmantWs c (by rw [hs]; exact hc2)
      · rw [hr]
        intro c hc
        rcases List.mem_cons.1 hc with rfl | hc2
        · rfl
        · exact hmantWs c (by rw [hs]; exact hc2)
    have hm1ne : (breakAtExp t).1 ≠ [] := by
      rcases parseSign_cases (breakAtExp t).1 with hs | ⟨r, hr, hs⟩ | ⟨r, hr, hs⟩
      · intro hnil
        apply hmant.1
        rw [hs, hnil]
      · rw [hr]; simp
      · rw [hr]; simp
    cases heo : (breakAtExp t).2 with
    | none =>
      have hbe := @breakAtExp_none t ((breakAtExp t).1) (by rw [← heo])
      constructor
      · rw [hbe.1]; exact hm1ne
      · intro c hc
        rw [hbe.1] at hc
        exact hm1 c hc
    | some ecs =>
      rw [heo] at h
      dsimp only at h
      cases hpn : parseNat (parseSign ecs).2 with
      | none =>
        rw [hpn] at h
        exact absurd h (by simp)
      | some ev =>
        have hexp := parseNat_chars hpn
        have hexpWs : ∀ c ∈ ecs, isWsChar c = false := by
          rcases parseSign_cases ecs with hs | ⟨r, hr, hs⟩ | ⟨r, hr, hs⟩
          · intro c hc
            exact isWsChar_false_of_isDigit (hexp.2 c (by rw [hs]; exact hc))
          · rw [hr]
            intro c hc
            rcases List.mem_cons.1 hc with rfl | hc2
            · rfl
            · exact isWsChar_false_of_isDigit (hexp.2 c (by rw [hs]; exact hc2))
          · rw [hr]
            intro c hc
            rcases List.mem_cons.1 hc with rfl | hc2
            · rfl
            · exact isWsChar_false_of_isDigit (hexp.2 c (by rw [hs]; exact hc2))
        have hbe := @breakAtExp_some t ((breakAtExp t).1) ecs (by rw [← heo])
        obtain ⟨c0, hc0, hteq⟩ := hbe.2
        have hc0Ws : isWsChar c0 = false := by
          unfold isExpChar at hc0
          rw [Bool.or_eq_true] at hc0
          rcases hc0 with hc0 | hc0
          · rw [beq_iff_eq.1 hc0]; rfl
          · rw [beq_iff_eq.1 hc0]; rfl
        constructor
        · rw [hteq]
          simp
        · intro c hc
          rw [hteq] at hc
          rcases List.mem_append.1 hc with hc1 | hc2
          · exact hm1 c hc1
          · rcases List.mem_cons.1 hc2 with rfl | hc3
            · exact hc0Ws
            · exact hexpWs c hc3

/-- A numeric token never matches a keyword starting with the letter `n`. -/
theorem parseDec_not_kw {t : List Char} {me : Int × Int}
    (h : parseDec t = some me) (k : List Char) :
    tokEqIC t ('n' :: k) = false := by
  cases t with
  | nil =>
    rw [parseDec_nil] at h
    exact absurd h (by simp)
  | cons c t2 =>
    cases htk : tokEqIC (c :: t2) ('n' :: k) with
    | false => rfl
    | true =>
      exfalso
      unfold tokEqIC at htk
      rw [Bool.and_eq_true] at htk
      have hlow := eqIC_lower (c := c) (d := 'n') (by decide) (by decide) htk.1
      have hn : c.toNat = 110 ∨ c.toNat = 78 := by
        have he : ('n' : Char).toNat = 110 := rfl
        omega
      rw [parseDec_head_n t2 hn] at h
      exact absurd h (by simp)

/-- A numeric token is not a `null`/`nan` sentinel. -/
theorem isSentinelTok_false {t : List Char} {me : Int × Int}
    (h : parseDec t = some me) : isSentinelTok t = false := by
  unfold isSentinelTok
  rw [show kwNull = 'n' :: ['u', 'l', 'l'] from rfl,
    show kwNan = 'n' :: ['a', 'n'] from rfl,
    parseDec_not_kw h, parseDec_not_kw h]
  rfl

/-- A numeric token does not match the `NODATA_value` keyword. -/
theorem tokEqIC_kwNodata_false {t : List Char} {me : Int × Int}
    (h : parseDec t = some me) : tokEqIC t kwNodata = false := by
  rw [show kwNodata = 'n' :: ['o', 'd', 'a', 't', 'a', '_', 'v', 'a', 'l', 'u', 'e']
    from rfl]
  exact parseDec_not_kw h _

/-! ## The default rendering always parses back -/

theorem takeWhile_all_append {p : Char → Bool} :
    ∀ {l : List Char}, (∀ c ∈ l, p c = true) → ∀ m : List Char,
      (l ++ m).takeWhile p = l ++ m.takeWhile p
  | [], _, m => by simp
  | c :: l, h, m => by
    rw [List.cons_append, List.takeWhile_cons, h c (by simp)]
    simp [takeWhile_all_append (fun d hd => h d (List.mem_cons_of_mem _ hd)) m]

theorem dropWhile_all_append {p : Char → Bool} :
    ∀ {l : List Char}, (∀ c ∈ l, p c = true) → ∀ m : List Char,
      (l ++ m).dropWhile p = m.dropWhile p
  | [], _, m => by simp
  | c :: l, h, m => by
    rw [List.cons_append, List.dropWhile_cons, h c (by simp)]
    simp [dropWhile_all_append (fun d hd => h d (List.mem_cons_of_mem _ hd)) m]

theorem isExpChar_false_of_isDigit {c : Char} (h : c.isDigit = true) :
    isExpChar c = false := by
  have hd := isDigit_toNat h
  unfold isExpChar
  have e1 : (c == 'e') = false :=
    beq_eq_false_iff_ne.mpr (fun he => by rw [he] at hd; simp at hd)
  have e2 : (c == 'E') = false :=
    beq_eq_false_iff_ne.mpr (fun he => by rw [he] at hd; simp at hd)
  rw [e1, e2]
  rfl

theorem breakAtExp_no_exp :
    ∀ cs : List Char, (∀ c ∈ cs, isExpChar c = false) →
      breakAtExp cs = (cs, none)
  | [], _ => rfl
  | c :: cs, h => by
    rw [breakAtExp, if_neg (by simp [h c (by simp)]),
      breakAtExp_no_exp cs (fun d hd => h d (List.mem_cons_of_mem _ hd))]

theorem mem_padZeros {c : Char} {p : Nat} {ds : List Char}
    (hds : ∀ d ∈ ds, d.isDigit = true) (h : c ∈ padZeros p ds) :
    c.isDigit = true := by
  unfold padZeros at h
  rcases List.mem_append.1 h with h1 | h2
  · rw [List.eq_of_mem_replicate h1]
    decide
  · exact hds c h2

/-- A predicate true on every element takes the whole list. -/
theorem takeWhile_all {p : Char → Bool} {l : List Char}
    (h : ∀ c ∈ l, p c = true) : l.takeWhile p = l := by
  have := takeWhile_all_append h []
  simpa using this

theorem dropWhile_all {p : Char → Bool} {l : List Char}
    (h : ∀ c ∈ l, p c = true) : l.dropWhile p = [] := by
  have := dropWhile_all_append h []
  simpa using this

/-- Fixed-precision rendering with at least one fractional digit always
parses back as a numeric token. -/
theorem parseDec_renderFixed {p : Nat} (hp : 0 < p) (q : ℚ) :
    ∃ me, parseDec (renderFixed p q) = some me := by
  unfold renderFixed
  dsimp only
  rw [if_neg (by omega : ¬ p = 0), List.append_assoc]
  set n : Int := qRound (q * ((pow10 p : Int) : ℚ)) with hn
  have hbodyDig : ∀ c ∈ padZeros p (renderNat (n.natAbs % pow10 p)),
      c.isDigit = true :=
    fun c hc => mem_padZeros (fun d hd => mem_renderNat_isDigit hd) hc
  have hipDig : ∀ c ∈ renderNat (n.natAbs / pow10 p), c.isDigit = true :=
    fun c hc => mem_renderNat_isDigit hc
  have hNoExp : ∀ c ∈ (if n < 0 then ['-'] else []) ++
      (renderNat (n.natAbs / pow10 p) ++
        '.' :: padZeros p (renderNat (n.natAbs % pow10 p))),
      isExpChar c = false := by
    intro c hc
    rcases List.mem_append.1 hc with h1 | h2
    · by_cases hneg : n < 0
      · rw [if_pos hneg] at h1
        simp only [List.mem_singleton] at h1
        subst h1
        rfl
      · rw [if_neg hneg] at h1
        simp at h1
    · rcases List.mem_append.1 h2 with h3 | h4
      · exact isExpChar_false_of_isDigit (hipDig c h3)
      · rcases List.mem_cons.1 h4 with rfl | h5
        · rfl
        · exact isExpChar_false_of_isDigit (hbodyDig c h5)
  unfold parseDec
  rw [breakAtExp_no_exp _ hNoExp]
  dsimp only
  have hps : (parseSign ((if n < 0 then ['-'] else []) ++
      (renderNat (n.natAbs / pow10 p) ++
        '.' :: padZeros p (renderNat (n.natAbs % pow10 p))))).2 =
      renderNat (n.natAbs / pow10 p) ++
        '.' :: padZeros p (renderNat (n.natAbs % pow10 p)) := by
    by_cases hneg : n < 0
    · rw [if_pos hneg]
      rfl
    · rw [if_neg hneg, List.nil_append]
      cases hrn : renderNat (n.natAbs / pow10 p) with
      | nil => exact absurd hrn (renderNat_ne_nil _)
      | cons c cs2 =>
        have hcdig : c.isDigit = true := by
          apply mem_renderNat_isDigit
          rw [hrn]
          simp
        have hdd := isDigit_toNat hcdig
        rw [List.cons_append]
        unfold parseSign
        dsimp only
        rw [if_neg (fun he => by rw [he] at hdd; simp at hdd),
          if_neg (fun he => by rw [he] at hdd; simp at hdd)]
  rw [hps]
  have hmant : ∃ vf, parseMant (renderNat (n.natAbs / pow10 p) ++
      '.' :: padZeros p (renderNat (n.natAbs % pow10 p))) = some vf := by
    unfold parseMant
    rw [takeWhile_all_append hipDig, dropWhile_all_append hipDig,
      List.takeWhile_cons, List.dropWhile_cons]
    rw [show (('.' : Char).isDigit) = false from rfl]
    simp only [Bool.false_eq_true, if_false, List.append_nil]
    rw [takeWhile_all hbodyDig, dropWhile_all hbodyDig]
    rw [if_pos (by decide)]
    rw [if_pos ?cond]
    case cond =>
      rw [Bool.and_eq_true]
      refine ⟨rfl, ?_⟩
      rw [Bool.not_eq_true']
      rw [Bool.and_eq_false_iff]
      left
      rw [← Bool.not_eq_true, List.isEmpty_iff]
      intro hemp
      exact renderNat_ne_nil _ hemp
    exact ⟨_, rfl⟩
  obtain ⟨vf, hvf⟩ := hmant
  rw [hvf]
  exact ⟨_, rfl⟩

/-- The default rendering always parses back as a numeric token. -/
theorem parseDec_renderDefault (q : ℚ) :
    ∃ me, parseDec (renderDefault q) = some me := by
  unfold renderDefault
  cases fracDigitsNeeded q with
  | none => exact parseDec_renderFixed (by omega) q
  | some k => exact parseDec_renderFixed (by omega) q

/-- The tokens rendered for header dimensions are well-formed. -/
theorem goodTok_renderNat (n : Nat) : GoodTok (renderNat n) :=
  ⟨renderNat_ne_nil n,
    fun _ hc => isWsChar_false_of_isDigit (mem_renderNat_isDigit hc)⟩

/-! ## Decoder evaluation on encoder output -/

theorem foldl_streamBytes :
    ∀ (l : List (List Char)) (a : Nat),
      l.foldl (fun a t => a + t.length + 1) a = a + streamBytes l
  | [], a => by simp [streamBytes]
  | t :: l, a => by
    unfold streamBytes
    rw [List.foldl_cons, List.foldl_cons, foldl_streamBytes l (a + t.length + 1),
      foldl_streamBytes l (0 + t.length + 1)]
    omega

theorem length_le_streamBytes :
    ∀ l : List (List Char), l.length ≤ streamBytes l
  | [] => le_refl _
  | t :: l => by
    unfold streamBytes
    rw [List.foldl_cons, foldl_streamBytes l _]
    have h := length_le_streamBytes l
    simp only [List.length_cons]
    omega

theorem chunkRows_flatten (w : Nat) :
    ∀ rows : List (List ℚ), (∀ r ∈ rows, r.length = w) →
      chunkRows w rows.length rows.flatten = rows
  | [], _ => rfl
  | r :: rs, h => by
    simp only [List.length_cons, List.flatten_cons]
    rw [chunkRows, List.take_left' (h r (by simp)),
      List.drop_left' (h r (by simp)),
      chunkRows_flatten w rs (fun x hx => h x (List.mem_cons_of_mem _ hx))]

theorem flatten_length_uniform :
    ∀ (rows : List (List ℚ)) (w : Nat), (∀ r ∈ rows, r.length = w) →
      rows.flatten.length = rows.length * w
  | [], w, _ => by simp
  | r :: rs, w, h => by
    simp only [List.flatten_cons, List.length_append, List.length_cons]
    rw [h r (by simp), flatten_length_uniform rs w
      (fun x hx => h x (List.mem_cons_of_mem _ hx))]
    ring

theorem mapM_tokInfo :
    ∀ (qs : List ℚ) (f : ℚ → List Char),
      (∀ q ∈ qs, parseQ (f q) = some q) →
      ∃ parsed : List TokInfo,
        (qs.map f).mapM tokInfo = some parsed ∧
          ∀ g : ℚ, parsed.map (fun i => match i with
            | none => g
            | some me => decToQ me) = qs
  | [], _, _ => ⟨[], rfl, fun _ => rfl⟩
  | q :: qs, f, h => by
    have hq := h q (by simp)
    unfold parseQ at hq
    obtain ⟨me, hme, hval⟩ := Option.map_eq_some'.1 hq
    obtain ⟨parsed, hm, hvals⟩ :=
      mapM_tokInfo qs f (fun x hx => h x (List.mem_cons_of_mem _ hx))
    have hti : tokInfo (f q) = some (some me) := by
      unfold tokInfo
      rw [if_neg (by simp [isSentinelTok_false hme]), hme]
      rfl
    refine ⟨some me :: parsed, ?_, ?_⟩
    · rw [List.map_cons, List.mapM_cons, hti, hm]
      rfl
    · intro g
      rw [List.map_cons]
      dsimp only
      rw [hval, hvals g]

theorem peelNodata_numeric (toks : List (List Char))
    (h : ∀ t ∈ toks, ∃ me, parseDec t = some me) :
    peelNodata toks = (none, toks) := by
  cases toks with
  | nil => rfl
  | cons t r =>
    cases r with
    | nil => rfl
    | cons v r2 =>
      unfold peelNodata
      dsimp only
      obtain ⟨me, hme⟩ := h t (by simp)
      rw [if_neg (by simp [tokEqIC_kwNodata_false hme])]

/-- Evaluation of the decoder body on well-formed data tokens, without a
nodata line. -/
theorem decodeBody_eval_nond (o' : DecodeOpts) (nc nr : Nat) (x y c : ℚ)
    (qs : List ℚ) (f : ℚ → List Char)
    (hq : ∀ q ∈ qs, parseQ (f q) = some q)
    (hlen : qs.length = nc * nr) :
    ∃ ty, decodeBody o' nc nr false false x y c (qs.map f) =
      .ok ⟨nc, nr, mkGT false false x y c nr, none, ty, chunkRows nc nr qs⟩ := by
  have hex : ∀ t ∈ qs.map f, ∃ me, parseDec t = some me := by
    intro t ht
    obtain ⟨q, hqm, rfl⟩ := List.mem_map.1 ht
    obtain ⟨me, hme, _⟩ := Option.map_eq_some'.1 (hq q hqm)
    exact ⟨me, hme⟩
  have hlm : (qs.map f).length = nc * nr := by rw [List.length_map, hlen]
  have htake : (qs.map f).take (nc * nr) = qs.map f := by
    rw [← hlm, List.take_length]
  obtain ⟨parsed, hm, hvals⟩ := mapM_tokInfo qs f hq
  unfold decodeBody
  dsimp only
  rw [peelNodata_numeric (qs.map f) hex]
  dsimp only
  rw [if_neg (by
    have := length_le_streamBytes (qs.map f)
    omega)]
  rw [if_neg (by omega)]
  rw [htake, hm]
  dsimp only [ndInfo]
  rw [hvals _]
  exact ⟨_, rfl⟩

/-- Evaluation of the decoder body on well-formed data tokens, with a
numeric nodata line. -/
theorem decodeBody_eval_nd (o' : DecodeOpts) (nc nr : Nat) (x y c : ℚ)
    (qs : List ℚ) (f : ℚ → List Char)
    (hq : ∀ q ∈ qs, parseQ (f q) = some q)
    (hlen : qs.length = nc * nr)
    (t : List Char) (v : ℚ) (me : Int × Int)
    (hme : parseDec t = some me) (hval : decToQ me = v) :
    ∃ ty, decodeBody o' nc nr false false x y c (kwNodata :: t :: qs.map f) =
      .ok ⟨nc, nr, mkGT false false x y c nr, some v, ty, chunkRows nc nr qs⟩ := by
  have hlm : (qs.map f).length = nc * nr := by rw [List.length_map, hlen]
  have htake : (qs.map f).take (nc * nr) = qs.map f := by
    rw [← hlm, List.take_length]
  obtain ⟨parsed, hm, hvals⟩ := mapM_tokInfo qs f hq
  have hti : tokInfo t = some (some me) := by
    unfold tokInfo
    rw [if_neg (by simp [isSentinelTok_false hme]), hme]
    rfl
  unfold decodeBody
  dsimp only
  rw [show peelNodata (kwNodata :: t :: qs.map f) = (some t, qs.map f) from by
    unfold peelNodata
    dsimp only
    rw [if_pos (tokEqIC_refl kwNodata)]]
  dsimp only
  rw [if_neg (by
    have := length_le_streamBytes (qs.map f)
    omega)]
  rw [if_neg (by omega)]
  rw [htake, hm]
  dsimp only [ndInfo]
  rw [hti]
  dsimp only [Option.map_some']
  rw [hvals _, hval]
  exact ⟨_, rfl⟩

/-- Decoding the encoder's output succeeds and recovers the dimensions,
the (north-up reconstructed) geotransform, the nodata value and exactly
the rows the encoder wrote, whenever every rendered number parses back to
itself. -/
theorem decode_encodeText (ds : AADataset) (o : EncodeOpts)
    (hw : 0 < ds.ncols) (_hh : 0 < ds.nrows)
    (hlen : ds.rows.length = ds.nrows)
    (hwid : ∀ r ∈ ds.rows, r.length = ds.ncols)
    (hg0 : parseQ (renderDefault ds.gt.g0) = some ds.gt.g0)
    (hgy : parseQ (renderDefault (encYll ds)) = some (encYll ds))
    (hg1 : parseQ (renderDefault ds.gt.g1) = some ds.gt.g1)
    (hpix : ∀ r ∈ ds.rows, ∀ q ∈ r, parseQ (renderOpt o q) = some q)
    (hndv : ∀ v, ds.ndv = some v → parseQ (renderOpt o v) = some v) :
    ∃ ty : ElemType, decode {} (encodeText ds o) =
      .ok ⟨ds.ncols, ds.nrows,
        ⟨ds.gt.g0, ds.gt.g1, 0, encYll ds + (ds.nrows : ℚ) * ds.gt.g1, 0,
          -ds.gt.g1⟩,
        ds.ndv, ty, encRows ds⟩ := by
  have hlenE : (encRows ds).length = ds.nrows := by
    unfold encRows
    by_cases hs : southUp ds
    · rw [if_pos hs, List.length_reverse, hlen]
    · rw [if_neg hs, hlen]
  have hwidE : ∀ r ∈ encRows ds, r.length = ds.ncols := by
    intro r hr
    unfold encRows at hr
    by_cases hs : southUp ds
    · rw [if_pos hs] at hr
      exact hwid r (List.mem_reverse.1 hr)
    · rw [if_neg hs] at hr
      exact hwid r hr
  have hpixE : ∀ q ∈ (encRows ds).flatten, parseQ (renderOpt o q) = some q := by
    intro q hq
    obtain ⟨r, hr, hqr⟩ := List.mem_flatten.1 hq
    unfold encRows at hr
    by_cases hs : southUp ds
    · rw [if_pos hs] at hr
      exact hpix r (List.mem_reverse.1 hr) q hqr
    · rw [if_neg hs] at hr
      exact hpix r hr q hqr
  have goodOf : ∀ t : List Char, (∃ me, parseDec t = some me) → GoodTok t := by
    intro t ht
    obtain ⟨me, hme⟩ := ht
    exact parseDec_good hme
  have goodOfQ : ∀ (t : List Char) (q : ℚ), parseQ t = some q → GoodTok t := by
    intro t q hq2
    obtain ⟨me, hme, _⟩ := Option.map_eq_some'.1 hq2
    exact parseDec_good hme
  have hkwGood : GoodTok kwNcols ∧ GoodTok kwNrows ∧ GoodTok kwXllcorner ∧
      GoodTok kwYllcorner ∧ GoodTok kwCellsize ∧ GoodTok kwNodata := by
    refine ⟨?_, ?_, ?_, ?_, ?_, ?_⟩ <;> exact ⟨by decide, by decide⟩
  have hlines_ne : ∀ l ∈ encodeLines ds o, l ≠ [] := by
    intro l hl
    unfold encodeLines at hl
    rcases List.mem_append.1 hl with h1 | h2
    · rcases List.mem_append.1 h1 with h0 | hnd
      · simp only [List.mem_cons, List.mem_singleton] at h0
        rcases h0 with rfl | rfl | rfl | rfl | rfl | h0
        · simp
        · simp
        · simp
        · simp
        · simp
        · simp at h0
      · cases hnd2 : ds.ndv with
        | none => rw [hnd2] at hnd; simp at hnd
        | some v =>
          rw [hnd2] at hnd
          simp only [List.mem_singleton] at hnd
          subst hnd
          simp
    · obtain ⟨r, hr, rfl⟩ := List.mem_map.1 h2
      have hrl := hwidE r hr
      intro hemp
      rw [List.map_eq_nil_iff] at hemp
      rw [hemp] at hrl
      simp at hrl
      omega
  have hlines_good : ∀ l ∈ encodeLines ds o, ∀ tk ∈ l, GoodTok tk := by
    intro l hl tk htk
    unfold encodeLines at hl
    rcases List.mem_append.1 hl with h1 | h2
    · rcases List.mem_append.1 h1 with h0 | hnd
      · simp only [List.mem_cons, List.mem_singleton] at h0
        rcases h0 with rfl | rfl | rfl | rfl | rfl | h0
        · rcases List.mem_cons.1 htk with rfl | htk2
          · exact hkwGood.1
          · simp only [List.mem_singleton] at htk2
            subst htk2
            exact goodTok_renderNat _
        · rcases List.mem_cons.1 htk with rfl | htk2
          · exact hkwGood.2.1
          · simp only [List.mem_singleton] at htk2
            subst htk2
            exact goodTok_renderNat _
        · rcases List.mem_cons.1 htk with rfl | htk2
          · exact hkwGood.2.2.1
          · simp only [List.mem_singleton] at htk2
            subst htk2
            exact goodOf _ (parseDec_renderDefault _)
        · rcases List.mem_cons.1 htk with rfl | htk2
          · exact hkwGood.2.2.2.1
          · simp only [List.mem_singleton] at htk2
            subst htk2
            exact goodOf _ (parseDec_renderDefault _)
        · rcases List.mem_cons.1 htk with rfl | htk2
          · exact hkwGood.2.2.2.2.1
          · simp only [List.mem_singleton] at htk2
            subst htk2
            exact goodOf _ (parseDec_renderDefault _)
        · simp at h0
      · cases hnd2 : ds.ndv with
        | none => rw [hnd2] at hnd; simp at hnd
        | some v =>
          rw [hnd2] at hnd
          simp only [List.mem_singleton] at hnd
          subst hnd
          rcases List.mem_cons.1 htk with rfl | htk2
          · exact hkwGood.2.2.2.2.2
          · simp only [List.mem_singleton] at htk2
            subst htk2
            exact goodOfQ _ v (hndv v hnd2)
    · obtain ⟨r, hr, rfl⟩ := List.mem_map.1 h2
      obtain ⟨q, hqm, rfl⟩ := List.mem_map.1 htk
      apply goodOfQ _ q
      apply hpixE
      exact List.mem_flatten.2 ⟨r, hr, hqm⟩
  have hlines_nonempty : encodeLines ds o ≠ [] := by
    unfold encodeLines
    simp
  -- tokenization
  unfold decode encodeText encodeChars
  dsimp only
  rw [tokenize_lines (encodeLines ds o) hlines_ne hlines_good hlines_nonempty]
  -- flatten the encoded lines
  obtain ⟨me0, hme0, hv0⟩ := Option.map_eq_some'.1 hg0
  obtain ⟨meY, hmeY, hvY⟩ := Option.map_eq_some'.1 hgy
  obtain ⟨meC, hmeC, hvC⟩ := Option.map_eq_some'.1 hg1
  have hflat : (encodeLines ds o).flatten =
      kwNcols :: renderNat ds.ncols :: kwNrows :: renderNat ds.nrows ::
      kwXllcorner :: renderDefault ds.gt.g0 ::
      kwYllcorner :: renderDefault (encYll ds) ::
      kwCellsize :: renderDefault ds.gt.g1 ::
      ((match ds.ndv with
        | none => []
        | some v => kwNodata :: [renderOpt o v]) ++
        ((encRows ds).flatten).map (renderOpt o)) := by
    unfold encodeLines
    rw [List.flatten_append, List.flatten_append]
    rw [show ([[kwNcols, renderNat ds.ncols],
      [kwNrows, renderNat ds.nrows],
      [kwXllcorner, renderDefault ds.gt.g0],
      [kwYllcorner, renderDefault (encYll ds)],
      [kwCellsize, renderDefault ds.gt.g1]] :
        List (List (List Char))).flatten =
      [kwNcols, renderNat ds.ncols, kwNrows, renderNat ds.nrows,
        kwXllcorner, renderDefault ds.gt.g0,
        kwYllcorner, renderDefault (encYll ds),
        kwCellsize, renderDefault ds.gt.g1] from rfl]
    rw [← List.map_flatten]
    cases ds.ndv with
    | none => rfl
    | some v => rfl
  rw [hflat]
  -- header parse
  unfold decodeToks
  dsimp only
  rw [if_pos (by simp [tokEqIC_refl])]
  rw [parseNat_renderNat, parseNat_renderNat, hme0, hmeY, hmeC]
  rw [show tokEqIC kwXllcorner kwXllcenter = false from by decide,
    show tokEqIC kwYllcorner kwYllcenter = false from by decide]
  dsimp only
  rw [hv0, hvY, hvC]
  -- data length
  have hqslen : ((encRows ds).flatten).length = ds.ncols * ds.nrows := by
    rw [flatten_length_uniform (encRows ds) ds.ncols hwidE, hlenE]
    ring
  -- decoder body
  cases hnd2 : ds.ndv with
  | none =>
    dsimp only
    obtain ⟨ty, hty⟩ := decodeBody_eval_nond {} ds.ncols ds.nrows
      ds.gt.g0 (encYll ds) ds.gt.g1 ((encRows ds).flatten) (renderOpt o)
      hpixE hqslen
    rw [List.nil_append, hty]
    refine ⟨ty, ?_⟩
    rw [show chunkRows ds.ncols ds.nrows ((encRows ds).flatten) = encRows ds
      from by rw [← hlenE]; exact chunkRows_flatten ds.ncols (encRows ds) hwidE]
    rw [show mkGT false false ds.gt.g0 (encYll ds) ds.gt.g1 ds.nrows =
      ⟨ds.gt.g0, ds.gt.g1, 0, encYll ds + (ds.nrows : ℚ) * ds.gt.g1, 0,
        -ds.gt.g1⟩ from rfl]
  | some v =>
    dsimp only
    obtain ⟨meV, hmeV, hvV⟩ := Option.map_eq_some'.1 (hndv v hnd2)
    obtain ⟨ty, hty⟩ := decodeBody_eval_nd {} ds.ncols ds.nrows
      ds.gt.g0 (encYll ds) ds.gt.g1 ((encRows ds).flatten) (renderOpt o)
      hpixE hqslen (renderOpt o v) v meV hmeV hvV
    simp only [List.cons_append, List.nil_append]
    rw [hty]
    refine ⟨ty, ?_⟩
    rw [show chunkRows ds.ncols ds.nrows ((encRows ds).flatten) = encRows ds
      from by rw [← hlenE]; exact chunkRows_flatten ds.ncols (encRows ds) hwidE]
    rw [show mkGT false false ds.gt.g0 (encYll ds) ds.gt.g1 ds.nrows =
      ⟨ds.gt.g0, ds.gt.g1, 0, encYll ds + (ds.nrows : ℚ) * ds.gt.g1, 0,
        -ds.gt.g1⟩ from rfl]

/-! ## Claim C4: south-up reconstruction -/

/-- C4. South-up reconstruction: encoding a dataset whose geotransform has
a positive row pitch flips the row order and emits the adjusted origin so
the textual grid is north-up; decoding the result yields the geotransform
with the row pitch negated and origin adjusted
(`g3' = g3 + nrows·g5`, `g5' = -g5`) and the pixel rows reversed. -/
theorem aaigrid_south_up_reconstruction (ds : AADataset) (o : EncodeOpts)
    (hw : 0 < ds.ncols) (hh : 0 < ds.nrows)
    (hlen : ds.rows.length = ds.nrows)
    (hwid : ∀ r ∈ ds.rows, r.length = ds.ncols)
    (hsouth : 0 < ds.gt.g5) (hsq : ds.gt.g1 = ds.gt.g5)
    (hg0 : parseQ (renderDefault ds.gt.g0) = some ds.gt.g0)
    (hgy : parseQ (renderDefault ds.gt.g3) = some ds.gt.g3)
    (hg1 : parseQ (renderDefault ds.gt.g1) = some ds.gt.g1)
    (hpix : ∀ r ∈ ds.rows, ∀ q ∈ r, parseQ (renderOpt o q) = some q)
    (hndv : ∀ v, ds.ndv = some v → parseQ (renderOpt o v) = some v) :
    ∃ ds2, decode {} (encodeText ds o) = .ok ds2 ∧
      ds2.rows = ds.rows.reverse ∧
      ds2.gt = ⟨ds.gt.g0, ds.gt.g5, 0,
        ds.gt.g3 + (ds.nrows : ℚ) * ds.gt.g5, 0, -ds.gt.g5⟩ ∧
      ds2.ncols = ds.ncols ∧ ds2.nrows = ds.nrows ∧ ds2.ndv = ds.ndv := by
  have hsU : southUp ds = true := by
    unfold southUp
    exact decide_eq_true hsouth
  have hyll : encYll ds = ds.gt.g3 := by
    unfold encYll
    rw [hsU]
    simp
  obtain ⟨ty, hdec⟩ := decode_encodeText ds o hw hh hlen hwid hg0
    (by rw [hyll]; exact hgy) hg1 hpix hndv
  refine ⟨_, hdec, ?_, ?_, rfl, rfl, rfl⟩
  · show encRows ds = ds.rows.reverse
    unfold encRows
    rw [hsU]
    simp
  · show GT.mk ds.gt.g0 ds.gt.g1 0 (encYll ds + (ds.nrows : ℚ) * ds.gt.g1) 0
      (-ds.gt.g1) = _
    rw [hyll, hsq]

/-- C4 witness: the documented 1×2 scenario — geotransform `(2,1,0,49,0,1)`
and rows `(1, 2)` read back as `(2,1,0,51,0,-1)` with rows `(2, 1)`. -/
theorem aaigrid_south_up_reconstruction_witness :
    decode {} (encodeText ⟨1, 2, ⟨2, 1, 0, 49, 0, 1⟩, none, ElemType.float32,
        [[1], [2]]⟩ {}) =
      .ok ⟨1, 2, ⟨2, 1, 0, 51, 0, -1⟩, none, ElemType.float32, [[2], [1]]⟩ ∧
    (∃ ds2, decode {} (encodeText ⟨1, 2, ⟨2, 1, 0, 49, 0, 1⟩, none,
        ElemType.float32, [[1], [2]]⟩ {}) = .ok ds2 ∧
      ds2.rows = [[(1 : ℚ)], [2]].reverse ∧
      ds2.gt = ⟨2, 1, 0, (49 : ℚ) + (2 : ℕ) * 1, 0, -1⟩ ∧
      ds2.ncols = 1 ∧ ds2.nrows = 2 ∧ ds2.ndv = none) :=
  ⟨by decide,
    aaigrid_south_up_reconstruction
      ⟨1, 2, ⟨2, 1, 0, 49, 0, 1⟩, none, ElemType.float32, [[1], [2]]⟩ {}
      (by decide) (by decide) (by decide) (by decide) (by decide) (by decide)
      (by decide) (by decide) (by decide) (by decide)
      (fun v hv => absurd hv (by simp))⟩

/-! ## Claim C1: codec round-trip identity -/

/-- C1 counterexample: a south-up dataset whose values are perfectly
lossless under the default precision still reads back with its rows
reversed, so the claim's universal quantification over *every* lossless
dataset fails (the spec's own orientation normalization flips the rows). -/
theorem aaigrid_roundtrip_counterexample :
    (∀ r ∈ [[(1 : ℚ)], [2]], ∀ q ∈ r, parseQ (renderOpt {} q) = some q) ∧
    decode {} (encodeText ⟨1, 2, ⟨2, 1, 0, 49, 0, 1⟩, none, ElemType.float32,
        [[1], [2]]⟩ {}) =
      .ok ⟨1, 2, ⟨2, 1, 0, 51, 0, -1⟩, none, ElemType.float32, [[2], [1]]⟩ ∧
    ([[(2 : ℚ)], [1]] : List (List ℚ)) ≠ [[1], [2]] :=
  ⟨by decide, by decide, by decide⟩

/-- C1 (amended). Codec round-trip identity for north-up storage: for
every dataset with non-positive row pitch whose numbers render losslessly
(every pixel, the nodata value and the geotransform fields parse back to
themselves), encoding with the ASCII Grid codec and decoding the result
yields a dataset whose full-extent pixel data equals the original
exactly; south-up datasets instead read back with rows reversed. -/
theorem aaigrid_roundtrip_north_up (ds : AADataset) (o : EncodeOpts)
    (hw : 0 < ds.ncols) (hh : 0 < ds.nrows)
    (hlen : ds.rows.length = ds.nrows)
    (hwid : ∀ r ∈ ds.rows, r.length = ds.ncols)
    (hnorth : ds.gt.g5 ≤ 0)
    (hg0 : parseQ (renderDefault ds.gt.g0) = some ds.gt.g0)
    (hgy : parseQ (renderDefault (encYll ds)) = some (encYll ds))
    (hg1 : parseQ (renderDefault ds.gt.g1) = some ds.gt.g1)
    (hpix : ∀ r ∈ ds.rows, ∀ q ∈ r, parseQ (renderOpt o q) = some q)
    (hndv : ∀ v, ds.ndv = some v → parseQ (renderOpt o v) = some v) :
    ∃ ds2, decode {} (encodeText ds o) = .ok ds2 ∧ ds2.rows = ds.rows ∧
      ds2.ncols = ds.ncols ∧ ds2.nrows = ds.nrows ∧ ds2.ndv = ds.ndv := by
  have hsU : southUp ds = false := by
    unfold southUp
    exact decide_eq_false (not_lt.2 hnorth)
  obtain ⟨ty, hdec⟩ := decode_encodeText ds o hw hh hlen hwid hg0 hgy hg1
    hpix hndv
  refine ⟨_, hdec, ?_, rfl, rfl, rfl⟩
  show encRows ds = ds.rows
  unfold encRows
  rw [hsU]
  simp

/-- C1 witness: a north-up 32-bit float band holding the value 107.0
(alongside 123.0, echoing the `"107.0 123"` check of `test_aaigrid_14`)
reads back exactly. -/
theorem aaigrid_roundtrip_north_up_witness :
    decode {} (encodeText ⟨2, 1, ⟨0, 1, 0, 1, 0, -1⟩, none, ElemType.float32,
        [[107, 123]]⟩ {}) =
      .ok ⟨2, 1, ⟨0, 1, 0, 1, 0, -1⟩, none, ElemType.float32, [[107, 123]]⟩ ∧
    (∃ ds2, decode {} (encodeText ⟨2, 1, ⟨0, 1, 0, 1, 0, -1⟩, none,
        ElemType.float32, [[107, 123]]⟩ {}) = .ok ds2 ∧
      ds2.rows = [[(107 : ℚ), 123]] ∧ ds2.ncols = 2 ∧ ds2.nrows = 1 ∧
      ds2.ndv = none) :=
  ⟨by decide,
    aaigrid_roundtrip_north_up
      ⟨2, 1, ⟨0, 1, 0, 1, 0, -1⟩, none, ElemType.float32, [[107, 123]]⟩ {}
      (by decide) (by decide) (by decide) (by decide) (by decide) (by decide)
      (by decide) (by decide) (by decide)
      (fun v hv => absurd hv (by simp))⟩

end GdalSpec
